import Mathlib

/-!
Formal model of the kcov coverage-collection facility (kernel/kcov.c),
shallowly embedded in Lean 4.  Machine words are modelled as natural
numbers; unsigned 64-bit arithmetic is made explicit with reductions
modulo 2 ^ 64 at every operation of the source that is performed in a
64-bit C type.  Coverage buffers are modelled as functions from word
index to stored word value.  The model targets a 64-bit kernel, where
sizeof(unsigned long) = 8, so that the unsigned-long cells of a PC
buffer and the u64 cells of a CMP buffer are both one 8-byte word.
-/

namespace Kcov

/-- Size in bytes of a machine word (sizeof(unsigned long) on 64-bit). -/
def wordSize : Nat := 8

/-- Modulus of unsigned 64-bit arithmetic. -/
def U64 : Nat := 2 ^ 64

/-- Number of 64-bit words written per one comparison record. -/
def KCOV_WORDS_PER_CMP : Nat := 4

/-- INT_MAX, the bound used by the KCOV_INIT_TRACE size check. -/
def KCOV_INT_MAX : Nat := 2147483647

/-- Unsigned 64-bit subtraction a - b (two's complement wraparound). -/
def u64sub (a b : Nat) : Nat := (a % U64 + (U64 - b % U64)) % U64

/-- The enum kcov_mode values. -/
inductive KcovMode where
  | DISABLED
  | INIT
  | TRACE_PC
  | TRACE_CMP
deriving DecidableEq

/-- KCOV_TRACE_PC ioctl argument value. -/
def KCOV_TRACE_PC : Nat := 0

/-- KCOV_TRACE_CMP ioctl argument value. -/
def KCOV_TRACE_CMP : Nat := 1

/-- KCOV_CMP_CONST flag (bit 0 of a comparison record type). -/
def KCOV_CMP_CONST : Nat := 1

/-- KCOV_CMP_SIZE(n) = n shifted left by one. -/
def KCOV_CMP_SIZE (n : Nat) : Nat := n * 2

/-- Write one word into a buffer modelled as an index-to-value map. -/
def wr (a : Nat → Nat) (i v : Nat) : Nat → Nat :=
  fun j => if j = i then v else a j

/-- The all-zero buffer contents (freshly vmalloc_user-ed area). -/
def zeroBuf : Nat → Nat := fun _ => 0

/--
The per-task fields consulted by the trace sinks: the in_task()
predicate of the calling context, and the task's cached kcov_mode and
kcov_size fields as published by kcov_start.
-/
structure TraceCtx where
  in_task : Bool
  kcov_mode : KcovMode
  kcov_size : Nat
deriving DecidableEq

/-- check_kcov_mode: record only in task context with the needed mode. -/
def check_kcov_mode (needed_mode : KcovMode) (t : TraceCtx) : Bool :=
  t.in_task && (t.kcov_mode == needed_mode)

/-- canonicalize_ip: subtract the (possibly zero) kaslr offset, as
unsigned long arithmetic. -/
def canonicalize_ip (kaslr ip : Nat) : Nat := u64sub ip kaslr

/--
The PC trace sink __sanitizer_cov_trace_pc, acting on the calling
task's buffer.  Word 0 holds the record count; one canonicalized PC is
appended at position count + 1 when that position is below kcov_size.
-/
def __sanitizer_cov_trace_pc (t : TraceCtx) (kaslr ret_ip : Nat)
    (area : Nat → Nat) : Nat → Nat :=
  if check_kcov_mode .TRACE_PC t then
    let ip := canonicalize_ip kaslr ret_ip
    let pos := (area 0 + 1) % U64
    if pos < t.kcov_size then wr (wr area pos ip) 0 pos else area
  else area

/-- A sequence of PC sink calls, in call order. -/
def runTracePC (t : TraceCtx) (kaslr : Nat) (ips : List Nat)
    (area : Nat → Nat) : Nat → Nat :=
  ips.foldl (fun a ip => __sanitizer_cov_trace_pc t kaslr ip a) area

/--
Invariant of a PC buffer of capacity N words after the sink has
processed the call list ps: the count word saturates at N - 1 and the
words 1 .. count hold the canonicalized PCs of the first calls.
-/
def pcInv (N kaslr : Nat) (ps : List Nat) (a : Nat → Nat) : Prop :=
  a 0 = min ps.length (N - 1) ∧
  ∀ i, i < min ps.length (N - 1) → a (i + 1) = canonicalize_ip kaslr (ps.getD i 0)

theorem check_pc_enabled (N : Nat) :
    check_kcov_mode .TRACE_PC ⟨true, .TRACE_PC, N⟩ = true := rfl

theorem pcInv_step (N kaslr : Nat) (hN : 2 ≤ N) (hN32 : N < 2 ^ 32)
    (ps : List Nat) (ip : Nat) (a : Nat → Nat) (h : pcInv N kaslr ps a) :
    pcInv N kaslr (ps ++ [ip])
      (__sanitizer_cov_trace_pc ⟨true, .TRACE_PC, N⟩ kaslr ip a) := by
  obtain ⟨hcount, hrec⟩ := h
  have hmin : min ps.length (N - 1) ≤ N - 1 := Nat.min_le_right _ _
  have hmod : (min ps.length (N - 1) + 1) % U64 = min ps.length (N - 1) + 1 := by
    apply Nat.mod_eq_of_lt
    have : N < U64 := lt_trans hN32 (by norm_num [U64])
    omega
  rw [__sanitizer_cov_trace_pc, check_pc_enabled, if_pos rfl]
  simp only [hcount, hmod]
  rcases Nat.lt_or_ge ps.length (N - 1) with hlt | hge
  · have hminl : min ps.length (N - 1) = ps.length := Nat.min_eq_left (le_of_lt hlt)
    have hpos : ps.length + 1 < N := by omega
    rw [hminl, if_pos hpos]
    have hmin' : min (ps ++ [ip]).length (N - 1) = ps.length + 1 := by
      simp only [List.length_append, List.length_singleton]
      omega
    constructor
    · simp [wr, hmin']
      omega
    · intro i hi
      rw [hmin'] at hi
      rcases Nat.lt_or_ge i ps.length with hilt | hieq
      · have h1 : i + 1 ≠ 0 := by omega
        have h2 : i + 1 ≠ ps.length + 1 := by omega
        simp only [wr, if_neg h1, if_neg h2]
        rw [List.getD_append _ _ _ _ hilt]
        exact hrec i (by omega)
      · have hieq' : i = ps.length := by omega
        subst hieq'
        simp only [wr]
        rw [if_neg (by omega : ¬ (ps.length + 1 = 0))]
        rw [List.getD_append_right _ _ _ _ (le_refl _)]
        simp
  · have hminl : min ps.length (N - 1) = N - 1 := Nat.min_eq_right hge
    have hpos : ¬ (N - 1 + 1 < N) := by omega
    rw [hminl, if_neg hpos]
    have hmin' : min (ps ++ [ip]).length (N - 1) = N - 1 := by
      simp only [List.length_append, List.length_singleton]
      omega
    refine ⟨by rw [hcount, hminl, hmin'], ?_⟩
    intro i hi
    rw [hmin'] at hi
    rw [List.getD_append _ _ _ _ (by omega : i < ps.length)]
    exact hrec i (by omega)

theorem pcInv_run (N kaslr : Nat) (hN : 2 ≤ N) (hN32 : N < 2 ^ 32)
    (ips : List Nat) :
    ∀ (ps : List Nat) (a : Nat → Nat), pcInv N kaslr ps a →
      pcInv N kaslr (ps ++ ips) (runTracePC ⟨true, .TRACE_PC, N⟩ kaslr ips a) := by
  induction ips with
  | nil => intro ps a h; simpa [runTracePC] using h
  | cons ip ips ih =>
    intro ps a h
    have hstep := pcInv_step N kaslr hN hN32 ps ip a h
    have := ih (ps ++ [ip]) _ hstep
    simpa [runTracePC, List.append_assoc] using this

/--
C1: for a PC-mode buffer of N words (N at least 2 as enforced by
KCOV_INIT_TRACE, and N below 2 ^ 32 as kcov_size is a C unsigned int),
after any sequence of PC sink calls starting from a zeroed buffer, the
count at word 0 equals min(number of calls, N - 1) and so never exceeds
N - 1, words 1 .. count are the canonicalized PCs of the first N - 1
calls in call order, and any call arriving when the count is N - 1
leaves the buffer unchanged.
-/
theorem pc_sink_bound_and_order (N kaslr : Nat) (hN : 2 ≤ N)
    (hN32 : N < 2 ^ 32) (ips : List Nat) :
    runTracePC ⟨true, .TRACE_PC, N⟩ kaslr ips zeroBuf 0 = min ips.length (N - 1) ∧
    (∀ i, i < min ips.length (N - 1) →
      runTracePC ⟨true, .TRACE_PC, N⟩ kaslr ips zeroBuf (i + 1) =
        canonicalize_ip kaslr (ips.getD i 0)) ∧
    (∀ ip area, area 0 = N - 1 →
      __sanitizer_cov_trace_pc ⟨true, .TRACE_PC, N⟩ kaslr ip area = area) := by
  have hbase : pcInv N kaslr [] zeroBuf := by
    constructor
    · simp [zeroBuf]
    · intro i hi; simp at hi
  have hrun := pcInv_run N kaslr hN hN32 ips [] zeroBuf hbase
  rw [List.nil_append] at hrun
  refine ⟨hrun.1, hrun.2, ?_⟩
  intro ip area hfull
  rw [__sanitizer_cov_trace_pc, check_pc_enabled, if_pos rfl]
  have hmod : (area 0 + 1) % U64 = N := by
    rw [hfull]
    have : N < U64 := lt_trans hN32 (by norm_num [U64])
    rw [Nat.mod_eq_of_lt (by omega)]
    omega
  simp only [hmod]
  rw [if_neg (by omega)]

/-- Witness for C1 at a concrete run: N = 3, calls at PCs 10, 20, 30;
the third call is dropped and the count saturates at 2. -/
theorem pc_sink_bound_and_order_witness :
    runTracePC ⟨true, .TRACE_PC, 3⟩ 0 [10, 20, 30] zeroBuf 0 = min 3 2 ∧
    runTracePC ⟨true, .TRACE_PC, 3⟩ 0 [10, 20, 30] zeroBuf 1 =
      canonicalize_ip 0 10 := by
  have h := pc_sink_bound_and_order 3 0 (by decide) (by decide) [10, 20, 30]
  exact ⟨h.1, h.2.1 0 (by decide)⟩

/--
The CMP trace sink write_comp_data, acting on the calling task's
buffer viewed as u64 words.  The buffer was allocated for kcov_size
unsigned longs; a record of KCOV_WORDS_PER_CMP u64 words is appended
when its end position in bytes fits.  All quantities of the source are
u64, hence the explicit reductions modulo 2 ^ 64.
-/
def write_comp_data (t : TraceCtx) (kaslr ty arg1 arg2 ip : Nat)
    (area : Nat → Nat) : Nat → Nat :=
  if check_kcov_mode .TRACE_CMP t then
    let ip' := canonicalize_ip kaslr ip
    let max_pos := t.kcov_size * wordSize
    let count := area 0
    let start_index := (1 + count * KCOV_WORDS_PER_CMP) % U64
    let end_pos := ((start_index + KCOV_WORDS_PER_CMP) * 8) % U64
    if end_pos ≤ max_pos then
      wr (wr (wr (wr (wr area start_index (ty % U64))
        ((start_index + 1) % U64) (arg1 % U64))
        ((start_index + 2) % U64) (arg2 % U64))
        ((start_index + 3) % U64) ip')
        0 ((count + 1) % U64)
    else area
  else area

theorem check_cmp_enabled (N : Nat) :
    check_kcov_mode .TRACE_CMP ⟨true, .TRACE_CMP, N⟩ = true := rfl

theorem wr_same (a : Nat → Nat) (i v j : Nat) (h : j = i) : wr a i v j = v := by
  simp [wr, h]

theorem wr_other (a : Nat → Nat) (i v j : Nat) (h : j ≠ i) : wr a i v j = a j := by
  simp [wr, h]

/-- In the no-overflow regime, a fitting comparison record is appended
at u64 word positions 1 + 4 count .. 4 + 4 count and the count
advances; all other words are untouched. -/
theorem write_comp_data_fits (N kaslr ty a1 a2 ip : Nat) (area : Nat → Nat)
    (hcnt : area 0 < 2 ^ 58)
    (hfits : (1 + (area 0 + 1) * 4) * 8 ≤ N * wordSize) :
    write_comp_data ⟨true, .TRACE_CMP, N⟩ kaslr ty a1 a2 ip area 0 = area 0 + 1 ∧
    write_comp_data ⟨true, .TRACE_CMP, N⟩ kaslr ty a1 a2 ip area (1 + 4 * area 0) =
      ty % U64 ∧
    write_comp_data ⟨true, .TRACE_CMP, N⟩ kaslr ty a1 a2 ip area (2 + 4 * area 0) =
      a1 % U64 ∧
    write_comp_data ⟨true, .TRACE_CMP, N⟩ kaslr ty a1 a2 ip area (3 + 4 * area 0) =
      a2 % U64 ∧
    write_comp_data ⟨true, .TRACE_CMP, N⟩ kaslr ty a1 a2 ip area (4 + 4 * area 0) =
      canonicalize_ip kaslr ip ∧
    (∀ j, j ≠ 0 → (j < 1 + 4 * area 0 ∨ 5 + 4 * area 0 ≤ j) →
      write_comp_data ⟨true, .TRACE_CMP, N⟩ kaslr ty a1 a2 ip area j = area j) := by
  have hU : (2 : Nat) ^ 58 * 32 + 48 < U64 := by norm_num [U64]
  have e1 : (1 + area 0 * KCOV_WORDS_PER_CMP) % U64 = 1 + area 0 * 4 := by
    rw [KCOV_WORDS_PER_CMP]
    exact Nat.mod_eq_of_lt (by omega)
  have e2 : ((1 + area 0 * 4 + KCOV_WORDS_PER_CMP) * 8) % U64 =
      (1 + area 0 * 4 + 4) * 8 := by
    rw [KCOV_WORDS_PER_CMP]
    exact Nat.mod_eq_of_lt (by omega)
  have e3 : (1 + area 0 * 4 + 1) % U64 = 1 + area 0 * 4 + 1 :=
    Nat.mod_eq_of_lt (by omega)
  have e4 : (1 + area 0 * 4 + 2) % U64 = 1 + area 0 * 4 + 2 :=
    Nat.mod_eq_of_lt (by omega)
  have e5 : (1 + area 0 * 4 + 3) % U64 = 1 + area 0 * 4 + 3 :=
    Nat.mod_eq_of_lt (by omega)
  have e6 : (area 0 + 1) % U64 = area 0 + 1 := Nat.mod_eq_of_lt (by omega)
  have hcond : (1 + area 0 * 4 + 4) * 8 ≤ N * wordSize := by
    rw [wordSize] at hfits ⊢
    omega
  rw [write_comp_data, check_cmp_enabled]
  simp only [if_pos rfl, e1, e2, e3, e4, e5, e6, if_pos hcond, if_true]
  refine ⟨?_, ?_, ?_, ?_, ?_, ?_⟩
  · rw [wr_same _ _ _ _ rfl]
  · rw [wr_other _ _ _ _ (by omega), wr_other _ _ _ _ (by omega),
      wr_other _ _ _ _ (by omega), wr_other _ _ _ _ (by omega),
      wr_same _ _ _ _ (by omega)]
  · rw [wr_other _ _ _ _ (by omega), wr_other _ _ _ _ (by omega),
      wr_other _ _ _ _ (by omega), wr_same _ _ _ _ (by omega)]
  · rw [wr_other _ _ _ _ (by omega), wr_other _ _ _ _ (by omega),
      wr_same _ _ _ _ (by omega)]
  · rw [wr_other _ _ _ _ (by omega), wr_same _ _ _ _ (by omega)]
  · intro j hj0 hj
    rw [wr_other _ _ _ _ (by omega), wr_other _ _ _ _ (by omega),
      wr_other _ _ _ _ (by omega), wr_other _ _ _ _ (by omega),
      wr_other _ _ _ _ (by omega)]

/-- A comparison record that does not fit is dropped: the buffer is
left untouched. -/
theorem write_comp_data_drop (N kaslr ty a1 a2 ip : Nat) (area : Nat → Nat)
    (hcnt : area 0 < 2 ^ 58)
    (hdrop : ¬ ((1 + (area 0 + 1) * 4) * 8 ≤ N * wordSize)) :
    write_comp_data ⟨true, .TRACE_CMP, N⟩ kaslr ty a1 a2 ip area = area := by
  have hU : (2 : Nat) ^ 58 * 32 + 48 < U64 := by norm_num [U64]
  have e1 : (1 + area 0 * KCOV_WORDS_PER_CMP) % U64 = 1 + area 0 * 4 := by
    rw [KCOV_WORDS_PER_CMP]
    exact Nat.mod_eq_of_lt (by omega)
  have e2 : ((1 + area 0 * 4 + KCOV_WORDS_PER_CMP) * 8) % U64 =
      (1 + area 0 * 4 + 4) * 8 := by
    rw [KCOV_WORDS_PER_CMP]
    exact Nat.mod_eq_of_lt (by omega)
  have hcond : ¬ ((1 + area 0 * 4 + 4) * 8 ≤ N * wordSize) := by
    rw [wordSize] at hdrop ⊢
    omega
  rw [write_comp_data, check_cmp_enabled]
  simp only [if_pos rfl, e1, e2, if_neg hcond, if_true]

/-- A sequence of CMP sink calls (type, arg1, arg2, raw ip), in order. -/
def runCmp (t : TraceCtx) (kaslr : Nat) (calls : List (Nat × Nat × Nat × Nat))
    (area : Nat → Nat) : Nat → Nat :=
  calls.foldl (fun a c => write_comp_data t kaslr c.1 c.2.1 c.2.2.1 c.2.2.2 a) area

/--
Invariant of a CMP buffer after the sink has processed the call list
ps: 64-bit word 0 holds the record count, and record i occupies words
1 + 4 i .. 4 + 4 i with the u64 values of the call's type and
arguments and the canonicalized ip.
-/
def cmpInv (kaslr : Nat) (ps : List (Nat × Nat × Nat × Nat)) (a : Nat → Nat) : Prop :=
  a 0 = ps.length ∧
  ∀ i, i < ps.length →
    a (1 + 4 * i) = (ps.getD i (0, 0, 0, 0)).1 % U64 ∧
    a (2 + 4 * i) = (ps.getD i (0, 0, 0, 0)).2.1 % U64 ∧
    a (3 + 4 * i) = (ps.getD i (0, 0, 0, 0)).2.2.1 % U64 ∧
    a (4 + 4 * i) = canonicalize_ip kaslr (ps.getD i (0, 0, 0, 0)).2.2.2

theorem cmpInv_step (N kaslr : Nat) (hN32 : N < 2 ^ 32)
    (ps : List (Nat × Nat × Nat × Nat)) (c : Nat × Nat × Nat × Nat)
    (a : Nat → Nat)
    (hfit : (1 + (ps.length + 1) * 4) * 8 ≤ N * wordSize)
    (h : cmpInv kaslr ps a) :
    cmpInv kaslr (ps ++ [c])
      (write_comp_data ⟨true, .TRACE_CMP, N⟩ kaslr c.1 c.2.1 c.2.2.1 c.2.2.2 a) := by
  obtain ⟨hcount, hrec⟩ := h
  have hlen : ps.length < 2 ^ 58 := by
    rw [wordSize] at hfit
    omega
  have hcnt : a 0 < 2 ^ 58 := by omega
  have hfits : (1 + (a 0 + 1) * 4) * 8 ≤ N * wordSize := by rw [hcount]; exact hfit
  obtain ⟨F0, F1, F2, F3, F4, Ffr⟩ :=
    write_comp_data_fits N kaslr c.1 c.2.1 c.2.2.1 c.2.2.2 a hcnt hfits
  constructor
  · rw [F0, hcount, List.length_append, List.length_singleton]
  · intro i hi
    rw [List.length_append, List.length_singleton] at hi
    rcases Nat.lt_or_ge i ps.length with hilt | hieq
    · have hgd : (ps ++ [c]).getD i (0, 0, 0, 0) = ps.getD i (0, 0, 0, 0) :=
        List.getD_append _ _ _ _ hilt
    -- all four words of record i lie strictly below the new record
      obtain ⟨G1, G2, G3, G4⟩ := hrec i hilt
      rw [hgd]
      refine ⟨?_, ?_, ?_, ?_⟩
      · rw [Ffr (1 + 4 * i) (by omega) (by omega), G1]
      · rw [Ffr (2 + 4 * i) (by omega) (by omega), G2]
      · rw [Ffr (3 + 4 * i) (by omega) (by omega), G3]
      · rw [Ffr (4 + 4 * i) (by omega) (by omega), G4]
    · have hieq' : i = ps.length := by omega
      subst hieq'
      have hgd : (ps ++ [c]).getD ps.length (0, 0, 0, 0) = c := by
        rw [List.getD_append_right _ _ _ _ (le_refl _)]
        simp
      rw [hgd]
      have l1 : 1 + 4 * ps.length = 1 + 4 * a 0 := by rw [hcount]
      have l2 : 2 + 4 * ps.length = 2 + 4 * a 0 := by rw [hcount]
      have l3 : 3 + 4 * ps.length = 3 + 4 * a 0 := by rw [hcount]
      have l4 : 4 + 4 * ps.length = 4 + 4 * a 0 := by rw [hcount]
      exact ⟨by rw [l1, F1], by rw [l2, F2], by rw [l3, F3], by rw [l4, F4]⟩

theorem cmpInv_run (N kaslr : Nat) (hN32 : N < 2 ^ 32)
    (calls : List (Nat × Nat × Nat × Nat)) :
    ∀ (ps : List (Nat × Nat × Nat × Nat)) (a : Nat → Nat), cmpInv kaslr ps a →
      (1 + (ps.length + calls.length) * 4) * 8 ≤ N * wordSize →
      cmpInv kaslr (ps ++ calls) (runCmp ⟨true, .TRACE_CMP, N⟩ kaslr calls a) := by
  induction calls with
  | nil =>
    intro ps a h _
    simpa [runCmp] using h
  | cons c cs ih =>
    intro ps a h hfit
    have hfit1 : (1 + (ps.length + 1) * 4) * 8 ≤ N * wordSize := by
      rw [wordSize] at hfit ⊢
      simp only [List.length_cons] at hfit
      omega
    have hstep := cmpInv_step N kaslr hN32 ps c a hfit1 h
    have hfit2 : (1 + ((ps ++ [c]).length + cs.length) * 4) * 8 ≤ N * wordSize := by
      rw [List.length_append, List.length_singleton]
      simp only [List.length_cons] at hfit
      have : ps.length + 1 + cs.length = ps.length + (cs.length + 1) := by omega
      rw [this]
      exact hfit
    have := ih (ps ++ [c]) _ hstep hfit2
    simpa [runCmp, List.append_assoc] using this

/--
C7: on a CMP-enabled task with a buffer of N words, a sink call with
current count value count appends its 4-word record at 64-bit word
positions 1 + 4 count .. 4 + 4 count and advances the count to
count + 1 exactly when (1 + (count + 1) * 4) * 8 is at most
N * sizeof(word); otherwise the buffer is unchanged.  Consequently,
after k in-capacity calls from a zeroed buffer the count is k and the
records appear in call order.  The count hypothesis 2 ^ 58 keeps the
u64 byte arithmetic of the source out of the wraparound regime; counts
produced by the sink itself always satisfy it.
-/
theorem cmp_sink_layout (N kaslr : Nat) (hN32 : N < 2 ^ 32) :
    (∀ ty a1 a2 ip area, (area : Nat → Nat) 0 < 2 ^ 58 →
      ((1 + (area 0 + 1) * 4) * 8 ≤ N * wordSize →
        write_comp_data ⟨true, .TRACE_CMP, N⟩ kaslr ty a1 a2 ip area 0 = area 0 + 1 ∧
        write_comp_data ⟨true, .TRACE_CMP, N⟩ kaslr ty a1 a2 ip area (1 + 4 * area 0) =
          ty % U64 ∧
        write_comp_data ⟨true, .TRACE_CMP, N⟩ kaslr ty a1 a2 ip area (2 + 4 * area 0) =
          a1 % U64 ∧
        write_comp_data ⟨true, .TRACE_CMP, N⟩ kaslr ty a1 a2 ip area (3 + 4 * area 0) =
          a2 % U64 ∧
        write_comp_data ⟨true, .TRACE_CMP, N⟩ kaslr ty a1 a2 ip area (4 + 4 * area 0) =
          canonicalize_ip kaslr ip) ∧
      (¬ ((1 + (area 0 + 1) * 4) * 8 ≤ N * wordSize) →
        write_comp_data ⟨true, .TRACE_CMP, N⟩ kaslr ty a1 a2 ip area = area)) ∧
    (∀ calls : List (Nat × Nat × Nat × Nat),
      (1 + calls.length * 4) * 8 ≤ N * wordSize →
      runCmp ⟨true, .TRACE_CMP, N⟩ kaslr calls zeroBuf 0 = calls.length ∧
      (∀ i, i < calls.length →
        runCmp ⟨true, .TRACE_CMP, N⟩ kaslr calls zeroBuf (1 + 4 * i) =
          (calls.getD i (0, 0, 0, 0)).1 % U64 ∧
        runCmp ⟨true, .TRACE_CMP, N⟩ kaslr calls zeroBuf (2 + 4 * i) =
          (calls.getD i (0, 0, 0, 0)).2.1 % U64 ∧
        runCmp ⟨true, .TRACE_CMP, N⟩ kaslr calls zeroBuf (3 + 4 * i) =
          (calls.getD i (0, 0, 0, 0)).2.2.1 % U64 ∧
        runCmp ⟨true, .TRACE_CMP, N⟩ kaslr calls zeroBuf (4 + 4 * i) =
          canonicalize_ip kaslr (calls.getD i (0, 0, 0, 0)).2.2.2)) := by
  constructor
  · intro ty a1 a2 ip area hcnt
    constructor
    · intro hfits
      obtain ⟨F0, F1, F2, F3, F4, _⟩ :=
        write_comp_data_fits N kaslr ty a1 a2 ip area hcnt hfits
      exact ⟨F0, F1, F2, F3, F4⟩
    · intro hdrop
      exact write_comp_data_drop N kaslr ty a1 a2 ip area hcnt hdrop
  · intro calls hk
    have hbase : cmpInv kaslr [] zeroBuf := by
      constructor
      · simp [zeroBuf]
      · intro i hi; simp at hi
    have hfit : (1 + (([] : List (Nat × Nat × Nat × Nat)).length + calls.length) * 4) * 8 ≤
        N * wordSize := by
      simpa using hk
    have hrun := cmpInv_run N kaslr hN32 calls [] zeroBuf hbase hfit
    rw [List.nil_append] at hrun
    exact ⟨hrun.1, hrun.2⟩

/-- Witness for C7: N = 9 words hold at most two CMP records; two calls
land in order with count 2. -/
theorem cmp_sink_layout_witness :
    runCmp ⟨true, .TRACE_CMP, 9⟩ 0 [(6, 1, 2, 30), (7, 3, 4, 40)] zeroBuf 0 = 2 ∧
    runCmp ⟨true, .TRACE_CMP, 9⟩ 0 [(6, 1, 2, 30), (7, 3, 4, 40)] zeroBuf 5 = 7 % U64 := by
  have h := (cmp_sink_layout 9 0 (by decide)).2 [(6, 1, 2, 30), (7, 3, 4, 40)]
    (by decide)
  exact ⟨h.1, (h.2 1 (by decide)).1⟩

/-- The u8 comparison sink. -/
def __sanitizer_cov_trace_cmp1 (t : TraceCtx) (kaslr a1 a2 ret_ip : Nat)
    (area : Nat → Nat) : Nat → Nat :=
  write_comp_data t kaslr (KCOV_CMP_SIZE 0) (a1 % 2 ^ 8) (a2 % 2 ^ 8) ret_ip area

/-- The u16 comparison sink. -/
def __sanitizer_cov_trace_cmp2 (t : TraceCtx) (kaslr a1 a2 ret_ip : Nat)
    (area : Nat → Nat) : Nat → Nat :=
  write_comp_data t kaslr (KCOV_CMP_SIZE 1) (a1 % 2 ^ 16) (a2 % 2 ^ 16) ret_ip area

/-- The u32 comparison sink. -/
def __sanitizer_cov_trace_cmp4 (t : TraceCtx) (kaslr a1 a2 ret_ip : Nat)
    (area : Nat → Nat) : Nat → Nat :=
  write_comp_data t kaslr (KCOV_CMP_SIZE 2) (a1 % 2 ^ 32) (a2 % 2 ^ 32) ret_ip area

/-- The u64 comparison sink. -/
def __sanitizer_cov_trace_cmp8 (t : TraceCtx) (kaslr a1 a2 ret_ip : Nat)
    (area : Nat → Nat) : Nat → Nat :=
  write_comp_data t kaslr (KCOV_CMP_SIZE 3) a1 a2 ret_ip area

/-- The u8 constant-comparison sink. -/
def __sanitizer_cov_trace_const_cmp1 (t : TraceCtx) (kaslr a1 a2 ret_ip : Nat)
    (area : Nat → Nat) : Nat → Nat :=
  write_comp_data t kaslr (Nat.lor (KCOV_CMP_SIZE 0) KCOV_CMP_CONST)
    (a1 % 2 ^ 8) (a2 % 2 ^ 8) ret_ip area

/-- The u16 constant-comparison sink. -/
def __sanitizer_cov_trace_const_cmp2 (t : TraceCtx) (kaslr a1 a2 ret_ip : Nat)
    (area : Nat → Nat) : Nat → Nat :=
  write_comp_data t kaslr (Nat.lor (KCOV_CMP_SIZE 1) KCOV_CMP_CONST)
    (a1 % 2 ^ 16) (a2 % 2 ^ 16) ret_ip area

/-- The u32 constant-comparison sink. -/
def __sanitizer_cov_trace_const_cmp4 (t : TraceCtx) (kaslr a1 a2 ret_ip : Nat)
    (area : Nat → Nat) : Nat → Nat :=
  write_comp_data t kaslr (Nat.lor (KCOV_CMP_SIZE 2) KCOV_CMP_CONST)
    (a1 % 2 ^ 32) (a2 % 2 ^ 32) ret_ip area

/-- The u64 constant-comparison sink. -/
def __sanitizer_cov_trace_const_cmp8 (t : TraceCtx) (kaslr a1 a2 ret_ip : Nat)
    (area : Nat → Nat) : Nat → Nat :=
  write_comp_data t kaslr (Nat.lor (KCOV_CMP_SIZE 3) KCOV_CMP_CONST) a1 a2 ret_ip area

/--
The switch sink: cases holds the number of case labels at index 0 and
their width in bits at index 1, followed by the labels; one
constant-comparison record is emitted per label.  Unknown widths are
ignored.
-/
def __sanitizer_cov_trace_switch (t : TraceCtx) (kaslr val : Nat)
    (cases : List Nat) (ret_ip : Nat) (area : Nat → Nat) : Nat → Nat :=
  let count := cases.getD 0 0
  let sz := cases.getD 1 0
  let emit := fun (ty : Nat) =>
    (List.range count).foldl
      (fun a i => write_comp_data t kaslr ty (cases.getD (i + 2) 0) val ret_ip a) area
  if sz = 8 then emit (Nat.lor KCOV_CMP_CONST (KCOV_CMP_SIZE 0))
  else if sz = 16 then emit (Nat.lor KCOV_CMP_CONST (KCOV_CMP_SIZE 1))
  else if sz = 32 then emit (Nat.lor KCOV_CMP_CONST (KCOV_CMP_SIZE 2))
  else if sz = 64 then emit (Nat.lor KCOV_CMP_CONST (KCOV_CMP_SIZE 3))
  else area

theorem foldl_fixed_point {α β : Type} (f : β → α → β) (h : ∀ b x, f b x = b) :
    ∀ (l : List α) (b : β), l.foldl f b = b := by
  intro l
  induction l with
  | nil => intro b; rfl
  | cons x xs ih => intro b; rw [List.foldl_cons, h]; exact ih _

theorem check_kcov_mode_false (m : KcovMode) (t : TraceCtx)
    (h : t.in_task = false ∨ t.kcov_mode ≠ m) : check_kcov_mode m t = false := by
  rcases h with h | h
  · simp [check_kcov_mode, h]
  · simp [check_kcov_mode, h]

theorem write_comp_data_noop (t : TraceCtx) (kaslr ty a1 a2 ip : Nat)
    (area : Nat → Nat) (h : t.in_task = false ∨ t.kcov_mode ≠ .TRACE_CMP) :
    write_comp_data t kaslr ty a1 a2 ip area = area := by
  rw [write_comp_data, check_kcov_mode_false _ _ h]
  simp

/--
C9: a trace-sink call made outside task context, or on a task whose
per-task mode word differs from the mode the sink implements, leaves
every coverage buffer completely unchanged; this covers the PC sink,
all eight comparison sinks and the switch sink.
-/
theorem sinks_noop_when_disabled (t : TraceCtx) (kaslr ret_ip v a1 a2 : Nat)
    (cs : List Nat) (area : Nat → Nat) :
    (t.in_task = false ∨ t.kcov_mode ≠ KcovMode.TRACE_PC →
      __sanitizer_cov_trace_pc t kaslr ret_ip area = area) ∧
    (t.in_task = false ∨ t.kcov_mode ≠ KcovMode.TRACE_CMP →
      write_comp_data t kaslr a1 a2 v ret_ip area = area ∧
      __sanitizer_cov_trace_cmp1 t kaslr a1 a2 ret_ip area = area ∧
      __sanitizer_cov_trace_cmp2 t kaslr a1 a2 ret_ip area = area ∧
      __sanitizer_cov_trace_cmp4 t kaslr a1 a2 ret_ip area = area ∧
      __sanitizer_cov_trace_cmp8 t kaslr a1 a2 ret_ip area = area ∧
      __sanitizer_cov_trace_const_cmp1 t kaslr a1 a2 ret_ip area = area ∧
      __sanitizer_cov_trace_const_cmp2 t kaslr a1 a2 ret_ip area = area ∧
      __sanitizer_cov_trace_const_cmp4 t kaslr a1 a2 ret_ip area = area ∧
      __sanitizer_cov_trace_const_cmp8 t kaslr a1 a2 ret_ip area = area ∧
      __sanitizer_cov_trace_switch t kaslr v cs ret_ip area = area) := by
  constructor
  · intro h
    rw [__sanitizer_cov_trace_pc, check_kcov_mode_false _ _ h]
    simp
  · intro h
    have hw : ∀ ty x1 x2, write_comp_data t kaslr ty x1 x2 ret_ip area = area :=
      fun ty x1 x2 => write_comp_data_noop t kaslr ty x1 x2 ret_ip area h
    refine ⟨hw _ _ _, hw _ _ _, hw _ _ _, hw _ _ _, hw _ _ _, hw _ _ _, hw _ _ _,
      hw _ _ _, hw _ _ _, ?_⟩
    rw [__sanitizer_cov_trace_switch]
    have hfold : ∀ (ty : Nat) (l : List Nat) (a : Nat → Nat),
        l.foldl (fun a i => write_comp_data t kaslr ty (cs.getD (i + 2) 0) v ret_ip a) a = a := by
      intro ty
      exact foldl_fixed_point _ (fun b x => write_comp_data_noop t kaslr ty _ v ret_ip b h)
    by_cases h8 : cs.getD 1 0 = 8
    · simp only [h8, if_pos rfl]
      exact hfold _ _ _
    · by_cases h16 : cs.getD 1 0 = 16
      · simp only [if_neg h8, h16, if_pos rfl]
        exact hfold _ _ _
      · by_cases h32 : cs.getD 1 0 = 32
        · simp only [if_neg h8, if_neg h16, h32, if_pos rfl]
          exact hfold _ _ _
        · by_cases h64 : cs.getD 1 0 = 64
          · simp only [if_neg h8, if_neg h16, if_neg h32, h64, if_pos rfl]
            exact hfold _ _ _
          · simp only [if_neg h8, if_neg h16, if_neg h32, if_neg h64]

/-- u64 subtraction coincides with Nat subtraction in the no-borrow
regime. -/
theorem u64sub_exact (a b : Nat) (hba : b ≤ a) (ha : a < U64) :
    u64sub a b = a - b := by
  have hU : U64 = 2 ^ 64 := rfl
  rw [u64sub, Nat.mod_eq_of_lt ha, Nat.mod_eq_of_lt (lt_of_le_of_lt hba ha)]
  rw [hU] at ha ⊢
  omega

/-- The memcpy of kcov_move_area at 8-byte word granularity (every
byte count handled by the merge is a multiple of 8). -/
def copyWords (dst src : Nat → Nat) (dstOff srcOff n : Nat) : Nat → Nat :=
  fun j => if dstOff ≤ j ∧ j < dstOff + n then src (srcOff + (j - dstOff)) else dst j

/--
Body of kcov_move_area after the mode switch has fixed count_size and
entry_size: validate the destination count, compute the free bytes,
move min(free, src bytes) and publish the new count.  All byte
arithmetic is u64 as in the source.
-/
def kcov_move_area_go (dst_area : Nat → Nat) (dst_area_size : Nat)
    (src_area : Nat → Nat) (count_size entry_size : Nat) : Nat → Nat :=
  let dst_len := dst_area 0
  let src_len := src_area 0
  if dst_len > u64sub ((dst_area_size * wordSize) % U64) count_size / entry_size then
    dst_area
  else
    let dst_occupied := (count_size + (dst_len * entry_size) % U64) % U64
    let dst_free := u64sub ((dst_area_size * wordSize) % U64) dst_occupied
    let bytes_to_move := min dst_free ((src_len * entry_size) % U64)
    let entries_moved := bytes_to_move / entry_size
    let moved := copyWords dst_area src_area (dst_occupied / 8) (count_size / 8)
      (bytes_to_move / 8)
    wr moved 0 ((dst_len + entries_moved) % U64)

/-- kcov_move_area: merge a source buffer into a destination buffer of
dst_area_size machine words.  PC mode moves one-word entries with a
one-word count; CMP mode moves 4-u64-word entries with a u64 count
(both counts are 8 bytes on the modelled 64-bit kernel).  Other modes
are a warned no-op. -/
def kcov_move_area (mode : KcovMode) (dst_area : Nat → Nat) (dst_area_size : Nat)
    (src_area : Nat → Nat) : Nat → Nat :=
  match mode with
  | .TRACE_PC => kcov_move_area_go dst_area dst_area_size src_area wordSize wordSize
  | .TRACE_CMP => kcov_move_area_go dst_area dst_area_size src_area 8
      (8 * KCOV_WORDS_PER_CMP)
  | _ => dst_area

theorem move_go_spec (dst src : Nat → Nat) (c e : Nat) (he : e = 8 ∨ e = 32)
    (hc : 1 ≤ c) (hc32 : c < 2 ^ 32) (hd : dst 0 ≤ (c * 8 - 8) / e)
    (hs : src 0 * e < U64) :
    kcov_move_area_go dst c src 8 e 0 = min (dst 0 + src 0) ((c * 8 - 8) / e) ∧
    (∀ r q, r < min ((c * 8 - 8) / e - dst 0) (src 0) → q < e / 8 →
      kcov_move_area_go dst c src 8 e (1 + dst 0 * (e / 8) + (r * (e / 8) + q)) =
        src (1 + (r * (e / 8) + q))) ∧
    (∀ j, 1 ≤ j → j < 1 + dst 0 * (e / 8) →
      kcov_move_area_go dst c src 8 e j = dst j) := by
  have hU : U64 = 2 ^ 64 := rfl
  have he0 : 0 < e := by rcases he with h | h <;> subst h <;> norm_num
  have hA : c * 8 < U64 := by rw [hU]; omega
  have hAm : (c * wordSize) % U64 = c * 8 := by
    rw [wordSize]
    exact Nat.mod_eq_of_lt hA
  have hsubA : u64sub (c * 8) 8 = c * 8 - 8 := u64sub_exact _ _ (by omega) hA
  have hde : dst 0 * e ≤ c * 8 - 8 := (Nat.le_div_iff_mul_le he0).1 hd
  have hguard : ¬ (dst 0 > (c * 8 - 8) / e) := not_lt.mpr hd
  have hm2 : (dst 0 * e) % U64 = dst 0 * e :=
    Nat.mod_eq_of_lt (lt_of_le_of_lt hde (lt_of_le_of_lt (Nat.sub_le _ _) hA))
  have hm3 : (8 + dst 0 * e) % U64 = 8 + dst 0 * e := by
    apply Nat.mod_eq_of_lt
    rw [hU]
    rw [hU] at hA
    omega
  have hm4 : u64sub (c * 8) (8 + dst 0 * e) = c * 8 - 8 - dst 0 * e := by
    rw [u64sub_exact _ _ (by omega) hA]
    omega
  have hm5 : (src 0 * e) % U64 = src 0 * e := Nat.mod_eq_of_lt hs
  rw [kcov_move_area_go]
  simp only [hAm, hsubA, hm2, hm3, hm4, hm5, if_neg hguard]
  refine ⟨?_, ?_, ?_⟩
  · rw [wr_same _ _ _ _ rfl, hU]
    rw [hU] at hs
    rcases he with h | h <;> subst h <;> omega
  · intro r q hr hq
    rw [wr_other _ _ _ _ (by omega)]
    simp only [copyWords]
    rw [if_pos (by constructor <;> rcases he with h | h <;> subst h <;> omega)]
    have harg : 8 / 8 + (1 + dst 0 * (e / 8) + (r * (e / 8) + q) - (8 + dst 0 * e) / 8) =
        1 + (r * (e / 8) + q) := by
      rcases he with h | h <;> subst h <;> omega
    rw [harg]
  · intro j hj1 hj2
    rw [wr_other _ _ _ _ (by omega)]
    simp only [copyWords]
    rw [if_neg (by rcases he with h | h <;> subst h <;> omega)]

/--
C2: merging a source buffer holding s records into a destination of
capacity c words already holding d records (d within the destination's
nominal record capacity) yields destination count
min(d + s, (c * word - count_size) / entry_size) with entry size one
machine word in PC mode and 32 bytes in CMP mode; the moved records
follow the d existing records in source order, and the existing
records are untouched.  Overflowing records are dropped by the min.
-/
theorem move_area_merge_bound (mode : KcovMode) (dst src : Nat → Nat) (c e : Nat)
    (hmode : mode = KcovMode.TRACE_PC ∨ mode = KcovMode.TRACE_CMP)
    (he : e = if mode = KcovMode.TRACE_PC then wordSize else 8 * KCOV_WORDS_PER_CMP)
    (hc : 1 ≤ c) (hc32 : c < 2 ^ 32) (hd : dst 0 ≤ (c * wordSize - 8) / e)
    (hs : src 0 * e < U64) :
    kcov_move_area mode dst c src 0 = min (dst 0 + src 0) ((c * wordSize - 8) / e) ∧
    (∀ r q, r < min ((c * wordSize - 8) / e - dst 0) (src 0) → q < e / 8 →
      kcov_move_area mode dst c src (1 + dst 0 * (e / 8) + (r * (e / 8) + q)) =
        src (1 + (r * (e / 8) + q))) ∧
    (∀ j, 1 ≤ j → j < 1 + dst 0 * (e / 8) →
      kcov_move_area mode dst c src j = dst j) := by
  rcases hmode with hm | hm
  · subst hm
    have he8 : e = 8 := by simpa [wordSize] using he
    subst he8
    rw [wordSize] at hd ⊢
    exact move_go_spec dst src c 8 (Or.inl rfl) hc hc32 hd hs
  · subst hm
    have he32 : e = 32 := by simpa [KCOV_WORDS_PER_CMP] using he
    subst he32
    rw [wordSize] at hd ⊢
    have hgo : kcov_move_area KcovMode.TRACE_CMP dst c src =
        kcov_move_area_go dst c src 8 32 := rfl
    rw [hgo]
    exact move_go_spec dst src c 32 (Or.inr rfl) hc hc32 hd hs

/-- Witness for C2: CMP-mode merge into a 17-word (136-byte)
destination holding one record, capacity 4 records, with a source of 5
records: the count saturates at 4 and the first moved record follows
the existing one. -/
theorem move_area_merge_bound_witness :
    kcov_move_area KcovMode.TRACE_CMP
      (wr zeroBuf 0 1) 17 (wr zeroBuf 0 5) 0 = min (1 + 5) ((17 * 8 - 8) / 32) ∧
    kcov_move_area KcovMode.TRACE_CMP
      (wr zeroBuf 0 1) 17 (wr zeroBuf 0 5) 5 = (wr zeroBuf 0 5) 1 := by
  have h := move_area_merge_bound KcovMode.TRACE_CMP (wr zeroBuf 0 1)
    (wr zeroBuf 0 5) 17 32 (Or.inr rfl) rfl (by decide) (by decide) (by decide)
    (by norm_num [U64, wr, zeroBuf])
  refine ⟨by simpa [wordSize] using h.1, ?_⟩
  have h2 := h.2.1 0 0 (by norm_num [wordSize, wr, zeroBuf]) (by decide)
  simpa [wr, zeroBuf] using h2

/-- Error returns of the control plane (negative errnos in the source). -/
inductive KErr where
  | EINVAL
  | EBUSY
  | ENOMEM
  | EEXIST
  | ENOTSUPP
  | ENOTTY
deriving DecidableEq

/-- Result of a control-plane call: zero or a negative errno. -/
inductive KRes where
  | ok
  | err (e : KErr)
deriving DecidableEq

/-- Result of kcov_get_mode: a kcov_mode or a negative errno. -/
inductive ModeRes where
  | mode (m : KcovMode)
  | err (e : KErr)
deriving DecidableEq

/-- kcov_get_mode: validate a KCOV_ENABLE / KCOV_REMOTE_ENABLE trace
mode argument.  The comparisons build option gates KCOV_TRACE_CMP. -/
def kcov_get_mode (cfg_comparisons : Bool) (arg : Nat) : ModeRes :=
  if arg = KCOV_TRACE_PC then .mode .TRACE_PC
  else if arg = KCOV_TRACE_CMP then
    (if cfg_comparisons then .mode .TRACE_CMP else .err .ENOTSUPP)
  else .err .EINVAL

/-- The per-task coverage fields of struct task_struct.  kcov is the
back-reference to the descriptor; the others are the cache written by
kcov_start and cleared by kcov_stop.  Areas are abstract ids. -/
structure KTask where
  kcov : Option Nat
  kcov_mode : KcovMode
  kcov_size : Nat
  kcov_area : Option Nat
  kcov_sequence : Nat
deriving DecidableEq

/-- A freshly forked task: kcov_task_init state. -/
def ktask0 : KTask := ⟨none, .DISABLED, 0, none, 0⟩

/-- struct kcov: one descriptor per opened file. -/
structure KcovDesc where
  refcount : Nat
  mode : KcovMode
  size : Nat
  area : Option Nat
  t : Option Nat
  remote : Bool
  remote_size : Nat
  sequence : Nat
deriving DecidableEq

/-- kcov_open: refcount 1, mode DISABLED, sequence 1. -/
def kcov_open : KcovDesc := ⟨1, .DISABLED, 0, none, none, false, 0, 1⟩

/--
The global state: all descriptors (indexed by an abstract id, one per
opened file), all tasks (indexed by task id), the remote registry as a
list of (handle, descriptor id) pairs with newest first (hash_add
inserts at a bucket head), and the free-list of scratch-buffer sizes.
-/
structure KSys where
  descs : Nat → KcovDesc
  tasks : Nat → KTask
  registry : List (Nat × Nat)
  areas : List Nat

/-- The initial system: every descriptor freshly opened, every task
fresh, empty registry and free-list. -/
def ksys0 : KSys := ⟨fun _ => kcov_open, fun _ => ktask0, [], []⟩

/-- Replace one descriptor. -/
def updDesc (s : KSys) (did : Nat) (d : KcovDesc) : KSys :=
  { s with descs := fun j => if j = did then d else s.descs j }

/-- Replace one task. -/
def updTask (s : KSys) (tid : Nat) (tk : KTask) : KSys :=
  { s with tasks := fun j => if j = tid then tk else s.tasks j }

/-- kcov_start: publish buffer cache and mode into the task. -/
def kcov_start (tk : KTask) (size : Nat) (area : Option Nat) (mode : KcovMode)
    (sequence : Nat) : KTask :=
  { tk with
    kcov_size := size
    kcov_area := area
    kcov_mode := mode
    kcov_sequence := sequence }

/-- kcov_stop: clear mode first, then the buffer cache. -/
def kcov_stop (tk : KTask) : KTask :=
  { tk with kcov_mode := .DISABLED, kcov_size := 0, kcov_area := none }

/-- kcov_task_init: kcov_stop plus clearing the back-reference. -/
def kcov_task_init (tk : KTask) : KTask :=
  { kcov_stop tk with kcov := none, kcov_sequence := 0 }

/-- kcov_reset: back to INIT with no owner; bump the sequence (a C int,
compared only for equality, modelled modulo 2 ^ 32). -/
def kcov_reset (d : KcovDesc) : KcovDesc :=
  { d with
    t := none
    mode := .INIT
    remote := false
    remote_size := 0
    sequence := (d.sequence + 1) % 2 ^ 32 }

/-- kcov_remote_find: look the handle up in the registry. -/
def kcov_remote_find (reg : List (Nat × Nat)) (handle : Nat) : Option Nat :=
  match reg.find? (fun p => p.1 == handle) with
  | some p => some p.2
  | none => none

/-- kcov_remote_reset: purge every registry entry owned by the
descriptor, then kcov_reset it. -/
def kcov_remote_reset (s : KSys) (did : Nat) : KSys :=
  let s1 : KSys := { s with registry := s.registry.filter (fun p => !(p.2 == did)) }
  updDesc s1 did (kcov_reset (s1.descs did))

/-- kcov_get: take a reference. -/
def kcov_get (s : KSys) (did : Nat) : KSys :=
  updDesc s did { s.descs did with refcount := (s.descs did).refcount + 1 }

/-- kcov_put: drop a reference; on the last one the descriptor purges
its registry entries and resets (the deallocation itself has no
observable effect on the modelled state). -/
def kcov_put (s : KSys) (did : Nat) : KSys :=
  let d := s.descs did
  if d.refcount - 1 = 0 then
    kcov_remote_reset (updDesc s did { d with refcount := 0 }) did
  else updDesc s did { d with refcount := d.refcount - 1 }

/-- The handle-insertion loop of KCOV_REMOTE_ENABLE.  alloc gives the
outcome of the i-th kmalloc.  On a duplicate handle or a failed
allocation the whole descriptor is rolled back by kcov_remote_reset. -/
def addHandles (did : Nat) (alloc : Nat → Bool) :
    KSys → List Nat → Nat → KSys × KRes
  | s, [], _ => (s, .ok)
  | s, h :: rest, i =>
    if (kcov_remote_find s.registry h).isSome then
      (kcov_remote_reset s did, .err .EEXIST)
    else if !(alloc i) then
      (kcov_remote_reset s did, .err .ENOMEM)
    else
      addHandles did alloc { s with registry := (h, did) :: s.registry } rest (i + 1)

/-- The ioctl commands, with the remote-enable argument struct inline
and an allocation oracle for its kmalloc calls. -/
inductive Ioctl where
  | INIT_TRACE (size : Nat)
  | ENABLE (arg : Nat)
  | DISABLE (arg : Nat)
  | REMOTE_ENABLE (trace_mode : Nat) (area_size : Nat) (handles : List Nat)
      (alloc : Nat → Bool)
  | UNKNOWN

/-- The state produced by a successful KCOV_ENABLE body: set the
descriptor mode, kcov_start the task, wire the two references, take a
refcount. -/
def kcov_enable_state (s : KSys) (did tid : Nat) (m : KcovMode) : KSys :=
  let d := s.descs did
  let tk := kcov_start (s.tasks tid) d.size d.area m d.sequence
  kcov_get (updTask (updDesc s did { d with mode := m, t := some tid }) tid
    { tk with kcov := some did }) did

/-- The state of KCOV_REMOTE_ENABLE just before the handle loop: mode,
owner, remote flag and remote size set, task back-reference wired. -/
def kcov_remote_pending (s : KSys) (did tid : Nat) (m : KcovMode)
    (area_size : Nat) : KSys :=
  updTask
    (updDesc s did { s.descs did with
      mode := m
      t := some tid
      remote := true
      remote_size := area_size })
    tid { s.tasks tid with kcov := some did }

/-- The state produced by a successful KCOV_DISABLE body:
kcov_task_init the task, reset the descriptor (purging its handles if
remote), drop the enable refcount. -/
def kcov_disable_state (s : KSys) (did tid : Nat) : KSys :=
  let s1 := updTask s tid (kcov_task_init (s.tasks tid))
  let s2 := if (s1.descs did).remote then kcov_remote_reset s1 did
    else updDesc s1 did (kcov_reset (s1.descs did))
  kcov_put s2 did

/-- kcov_ioctl_locked, for descriptor did called by task tid. -/
def kcov_ioctl_locked (cfg : Bool) (s : KSys) (did tid : Nat) (cmd : Ioctl) :
    KSys × KRes :=
  match cmd with
  | .INIT_TRACE size =>
    if (s.descs did).mode ≠ KcovMode.DISABLED then (s, .err .EBUSY)
    else if size < 2 ∨ size > KCOV_INT_MAX / wordSize then (s, .err .EINVAL)
    else (updDesc s did { s.descs did with size := size, mode := .INIT }, .ok)
  | .ENABLE arg =>
    if (s.descs did).mode ≠ KcovMode.INIT ∨ (s.descs did).area = none then
      (s, .err .EINVAL)
    else if (s.descs did).t ≠ none ∨ (s.tasks tid).kcov ≠ none then (s, .err .EBUSY)
    else
      match kcov_get_mode cfg arg with
      | .err e => (s, .err e)
      | .mode m => (kcov_enable_state s did tid m, .ok)
  | .DISABLE arg =>
    if arg ≠ 0 ∨ (s.tasks tid).kcov ≠ some did then (s, .err .EINVAL)
    else if (s.descs did).t ≠ some tid then (s, .err .EINVAL)
    else (kcov_disable_state s did tid, .ok)
  | .REMOTE_ENABLE trace_mode area_size handles alloc =>
    if (s.descs did).mode ≠ KcovMode.INIT ∨ (s.descs did).area = none then
      (s, .err .EINVAL)
    else if (s.descs did).t ≠ none ∨ (s.tasks tid).kcov ≠ none then (s, .err .EBUSY)
    else
      match kcov_get_mode cfg trace_mode with
      | .err e => (s, .err e)
      | .mode m =>
        match addHandles did alloc (kcov_remote_pending s did tid m area_size)
            handles 0 with
        | (s2, .err e) => (s2, .err e)
        | (s2, .ok) => (kcov_get s2 did, .ok)
  | .UNKNOWN => (s, .err .ENOTTY)

/-- kcov_mmap on one descriptor: candidate is the vmalloc_user result
(none models allocation failure).  The Bool reports whether the
candidate region was discarded via vfree. -/
def kcov_mmap (d : KcovDesc) (vm_len vm_pgoff : Nat) (candidate : Option Nat) :
    KcovDesc × KRes × Bool :=
  match candidate with
  | none => (d, .err .ENOMEM, false)
  | some cand =>
    if d.mode ≠ KcovMode.INIT ∨ vm_pgoff ≠ 0 ∨ vm_len ≠ d.size * wordSize then
      (d, .err .EINVAL, true)
    else if d.area = none then ({ d with area := some cand }, .ok, false)
    else (d, .ok, true)

/-- kcov_remote_area_get: pop a free scratch buffer of exactly the
requested size, if one exists. -/
def kcov_remote_area_get (areas : List Nat) (size : Nat) : Option (List Nat) :=
  if areas.contains size then some (areas.erase size) else none

/-- kcov_remote_start for task tid on the given handle.  alloc_ok is
the outcome of the fallback vmalloc; fresh_area is the id of the
obtained scratch buffer. -/
def kcov_remote_start (s : KSys) (tid handle : Nat) (in_task alloc_ok : Bool)
    (fresh_area : Nat) : KSys :=
  if !in_task then s
  else if (s.tasks tid).kcov ≠ none then s
  else
    match kcov_remote_find s.registry handle with
    | none => s
    | some did =>
      let s1 := kcov_get s did
      let s2 := updTask s1 tid { s1.tasks tid with kcov := some did }
      let d := s2.descs did
      match kcov_remote_area_get s2.areas d.remote_size with
      | some areas1 =>
        updTask { s2 with areas := areas1 } tid
          (kcov_start (s2.tasks tid) d.remote_size (some fresh_area) d.mode d.sequence)
      | none =>
        if alloc_ok then
          updTask s2 tid
            (kcov_start (s2.tasks tid) d.remote_size (some fresh_area) d.mode d.sequence)
        else kcov_put s2 did

/-- The effect of kcov_remote_stop on the descriptor's shared buffer:
merge the scratch buffer only when the sequence snapshot taken at
kcov_remote_start still matches and the descriptor is still remote. -/
def kcov_remote_stop_merge (snap_sequence : Nat) (d : KcovDesc)
    (dst src : Nat → Nat) : Nat → Nat :=
  if snap_sequence = d.sequence ∧ d.remote = true then
    kcov_move_area d.mode dst d.size src
  else dst

/-- A control-plane event: an ioctl or an mmap on one descriptor by
one task. -/
inductive CtrlOp where
  | ioctl (cmd : Ioctl)
  | mmap (vm_len vm_pgoff : Nat) (candidate : Option Nat)

/-- One control-plane step: (descriptor id, task id, operation). -/
def ctrlStep (cfg : Bool) (s : KSys) (ev : Nat × Nat × CtrlOp) : KSys :=
  match ev.2.2 with
  | .ioctl cmd => (kcov_ioctl_locked cfg s ev.1 ev.2.1 cmd).1
  | .mmap len off cand => updDesc s ev.1 (kcov_mmap (s.descs ev.1) len off cand).1

/-- Run a list of control-plane events. -/
def runCtrl (cfg : Bool) (evs : List (Nat × Nat × CtrlOp)) (s : KSys) : KSys :=
  evs.foldl (ctrlStep cfg) s

/-- States reachable from boot through the control plane. -/
def ReachableCtrl (cfg : Bool) (s : KSys) : Prop :=
  ∃ evs, s = runCtrl cfg evs ksys0

/--
C10: an ENABLE or REMOTE_ENABLE on an INIT descriptor with a buffer
and no attached task, whose trace-mode argument is not an accepted
mode value, fails with invalid-argument (not-supported for
KCOV_TRACE_CMP with comparisons compiled out) and changes nothing:
kcov_get_mode runs before any mutation.
-/
theorem invalid_mode_rejected (cfg : Bool) (S : KSys) (did tid arg asize : Nat)
    (handles : List Nat) (alloc : Nat → Bool)
    (hmode : (S.descs did).mode = KcovMode.INIT)
    (harea : (S.descs did).area ≠ none)
    (ht : (S.descs did).t = none)
    (htk : (S.tasks tid).kcov = none)
    (harg0 : arg ≠ KCOV_TRACE_PC)
    (harg1 : arg = KCOV_TRACE_CMP → cfg = false) :
    kcov_ioctl_locked cfg S did tid (.ENABLE arg) =
      (S, .err (if arg = KCOV_TRACE_CMP then KErr.ENOTSUPP else KErr.EINVAL)) ∧
    kcov_ioctl_locked cfg S did tid (.REMOTE_ENABLE arg asize handles alloc) =
      (S, .err (if arg = KCOV_TRACE_CMP then KErr.ENOTSUPP else KErr.EINVAL)) := by
  have hgm : kcov_get_mode cfg arg =
      .err (if arg = KCOV_TRACE_CMP then KErr.ENOTSUPP else KErr.EINVAL) := by
    rw [kcov_get_mode, if_neg harg0]
    by_cases h : arg = KCOV_TRACE_CMP
    · rw [if_pos h, if_pos h, harg1 h]
      simp
    · rw [if_neg h, if_neg h]
  constructor
  · simp only [kcov_ioctl_locked]
    rw [if_neg (by simp [hmode, harea]), if_neg (by simp [ht, htk]), hgm]
  · simp only [kcov_ioctl_locked]
    rw [if_neg (by simp [hmode, harea]), if_neg (by simp [ht, htk]), hgm]

/-- A descriptor that has completed INIT_TRACE(4) and a first
successful mmap attaching area 1. -/
def c4desc : KcovDesc := { kcov_open with mode := .INIT, size := 4, area := some 1 }

/--
Counterexample to C4 as stated: on a descriptor with a buffer already
attached, a second mmap with valid offset and length allocates and
discards a candidate region but returns success (res stays 0), not an
error.
-/
theorem mmap_second_call_succeeds :
    c4desc.area = some 1 ∧
    (kcov_mmap c4desc 32 0 (some 2)).1 = c4desc ∧
    (kcov_mmap c4desc 32 0 (some 2)).2.1 = KRes.ok ∧
    (kcov_mmap c4desc 32 0 (some 2)).2.2 = true := by decide

/--
C4 amended: once a first successful map has attached a buffer, every
subsequent mmap call leaves the descriptor (and its buffer) unchanged
and discards the freshly allocated candidate region; it returns
success when the descriptor is in INIT with offset 0 and exact length,
and invalid-argument otherwise -- never attaching the candidate.
-/
theorem mmap_after_attach_never_replaces (d : KcovDesc) (len off cand a : Nat)
    (hatt : d.area = some a) :
    (kcov_mmap d len off (some cand)).1 = d ∧
    (kcov_mmap d len off (some cand)).2.2 = true ∧
    (kcov_mmap d len off (some cand)).2.1 =
      (if d.mode = KcovMode.INIT ∧ off = 0 ∧ len = d.size * wordSize then KRes.ok
       else KRes.err KErr.EINVAL) := by
  rw [kcov_mmap]
  by_cases hc : d.mode ≠ KcovMode.INIT ∨ off ≠ 0 ∨ len ≠ d.size * wordSize
  · rw [if_pos hc]
    refine ⟨rfl, rfl, ?_⟩
    rw [if_neg (by tauto)]
  · rw [if_neg hc, if_neg (by simp [hatt])]
    refine ⟨rfl, rfl, ?_⟩
    rw [if_pos (by tauto)]

/-- Witness for the amended C4 at the concrete second map call. -/
theorem mmap_after_attach_never_replaces_witness :
    (kcov_mmap c4desc 32 0 (some 2)).1 = c4desc ∧
    (kcov_mmap c4desc 32 0 (some 2)).2.2 = true ∧
    (kcov_mmap c4desc 32 0 (some 2)).2.1 =
      (if c4desc.mode = KcovMode.INIT ∧ (0 : Nat) = 0 ∧
          (32 : Nat) = c4desc.size * wordSize then KRes.ok
       else KRes.err KErr.EINVAL) :=
  mmap_after_attach_never_replaces c4desc 32 0 2 1 rfl

/-- Control-plane preamble bringing descriptor 0 to INIT(4) with an
attached buffer: the precondition of (REMOTE_)ENABLE. -/
def setupEvents : List (Nat × Nat × CtrlOp) :=
  [(0, 0, .ioctl (.INIT_TRACE 4)), (0, 0, .mmap 32 0 (some 1))]

/-- The state after that preamble. -/
def initMappedSys : KSys := runCtrl true setupEvents ksys0

/--
C3 evidence: a REMOTE_ENABLE whose handle list repeats handle 5 fails
with exists; the registry and the descriptor are rolled back (INIT, no
owner), but the calling task is left attached: t->kcov still points at
the descriptor, contradicting the full-rollback claim.  The same
stale pointer later trips the source's own WARN_ON(t->kcov) in
kcov_remote_start and WARN_ON(kcov->t != t) in kcov_task_exit.
-/
theorem remote_enable_dup_leaves_task_attached :
    (kcov_ioctl_locked true initMappedSys 0 0
      (.REMOTE_ENABLE 0 7 [5, 5] (fun _ => true))).2 = KRes.err KErr.EEXIST ∧
    (kcov_ioctl_locked true initMappedSys 0 0
      (.REMOTE_ENABLE 0 7 [5, 5] (fun _ => true))).1.registry =
      initMappedSys.registry ∧
    ((kcov_ioctl_locked true initMappedSys 0 0
      (.REMOTE_ENABLE 0 7 [5, 5] (fun _ => true))).1.descs 0).mode =
      KcovMode.INIT ∧
    ((kcov_ioctl_locked true initMappedSys 0 0
      (.REMOTE_ENABLE 0 7 [5, 5] (fun _ => true))).1.descs 0).t = none ∧
    ((kcov_ioctl_locked true initMappedSys 0 0
      (.REMOTE_ENABLE 0 7 [5, 5] (fun _ => true))).1.tasks 0).kcov = some 0 := by
  decide

/-- The state after a successful REMOTE_ENABLE of handle 5 on
descriptor 0 by task 0. -/
def remoteEnabledSys : KSys :=
  runCtrl true (setupEvents ++
    [(0, 0, .ioctl (.REMOTE_ENABLE 0 7 [5] (fun _ => true)))]) ksys0

/--
C8 evidence: a kcov_remote_start by task 1 on registered handle 5
whose scratch-buffer acquisition fails (free-list miss and vmalloc
failure) releases the refcount it took and publishes no buffer, but
leaves the calling task attached: t->kcov still points at the
descriptor, contradicting the claim that the task's attachment state
is exactly as before the call.
-/
theorem remote_start_alloc_failure_leaves_task_attached :
    ((kcov_remote_start remoteEnabledSys 1 5 true false 9).descs 0).refcount =
      ((remoteEnabledSys.descs 0)).refcount ∧
    (remoteEnabledSys.tasks 1).kcov = none ∧
    ((kcov_remote_start remoteEnabledSys 1 5 true false 9).tasks 1).kcov = some 0 ∧
    ((kcov_remote_start remoteEnabledSys 1 5 true false 9).tasks 1).kcov_area = none ∧
    ((kcov_remote_start remoteEnabledSys 1 5 true false 9).tasks 1).kcov_mode =
      KcovMode.DISABLED := by
  decide

theorem kcov_get_mode_trace (cfg : Bool) (arg : Nat) (m : KcovMode)
    (h : kcov_get_mode cfg arg = .mode m) :
    m = KcovMode.TRACE_PC ∨ m = KcovMode.TRACE_CMP := by
  by_cases h1 : arg = KCOV_TRACE_PC
  · rw [kcov_get_mode, if_pos h1] at h
    cases h
    exact Or.inl rfl
  · by_cases h2 : arg = KCOV_TRACE_CMP
    · rw [kcov_get_mode, if_neg h1, if_pos h2] at h
      cases cfg
      · simp at h
      · simp at h
        exact Or.inr h.symm
    · rw [kcov_get_mode, if_neg h1, if_neg h2] at h
      simp at h

theorem kcov_mmap_fields (d : KcovDesc) (len off : Nat) (cand : Option Nat) :
    ((kcov_mmap d len off cand).1).mode = d.mode ∧
    ((kcov_mmap d len off cand).1).t = d.t ∧
    ((kcov_mmap d len off cand).1).sequence = d.sequence := by
  rcases cand with _ | c
  · exact ⟨rfl, rfl, rfl⟩
  · rw [kcov_mmap]
    by_cases h1 : d.mode ≠ KcovMode.INIT ∨ off ≠ 0 ∨ len ≠ d.size * wordSize
    · rw [if_pos h1]
      exact ⟨rfl, rfl, rfl⟩
    · rw [if_neg h1]
      by_cases h2 : d.area = none
      · rw [if_pos h2]
        exact ⟨rfl, rfl, rfl⟩
      · rw [if_neg h2]
        exact ⟨rfl, rfl, rfl⟩

theorem kcov_get_fields (s : KSys) (did dd : Nat) :
    ((kcov_get s did).descs dd).mode = (s.descs dd).mode ∧
    ((kcov_get s did).descs dd).t = (s.descs dd).t ∧
    ((kcov_get s did).descs dd).sequence = (s.descs dd).sequence ∧
    (kcov_get s did).tasks = s.tasks := by
  by_cases h : dd = did
  · subst h
    simp [kcov_get, updDesc]
  · simp [kcov_get, updDesc, h]

theorem kcov_remote_reset_fields (s : KSys) (did dd : Nat) :
    (kcov_remote_reset s did).tasks = s.tasks ∧
    (dd ≠ did → (kcov_remote_reset s did).descs dd = s.descs dd) ∧
    (kcov_remote_reset s did).descs did = kcov_reset (s.descs did) := by
  refine ⟨rfl, ?_, ?_⟩
  · intro hdd
    simp [kcov_remote_reset, updDesc, hdd]
  · simp [kcov_remote_reset, updDesc]

theorem kcov_put_tasks (s : KSys) (did : Nat) :
    (kcov_put s did).tasks = s.tasks := by
  rw [kcov_put]
  by_cases h : (s.descs did).refcount - 1 = 0
  · rw [if_pos h]
    exact (kcov_remote_reset_fields _ _ 0).1
  · rw [if_neg h]
    rfl

theorem kcov_put_descs_other (s : KSys) (did dd : Nat) (hdd : dd ≠ did) :
    (kcov_put s did).descs dd = s.descs dd := by
  rw [kcov_put]
  by_cases h : (s.descs did).refcount - 1 = 0
  · rw [if_pos h]
    rw [(kcov_remote_reset_fields _ _ dd).2.1 hdd]
    simp [updDesc, hdd]
  · rw [if_neg h]
    simp [updDesc, hdd]

theorem kcov_put_self (s : KSys) (did : Nat) :
    (((kcov_put s did).descs did).t = (s.descs did).t ∧
     ((kcov_put s did).descs did).mode = (s.descs did).mode ∧
     ((kcov_put s did).descs did).sequence = (s.descs did).sequence) ∨
    (((kcov_put s did).descs did).t = none ∧
     ((kcov_put s did).descs did).mode = KcovMode.INIT ∧
     ((kcov_put s did).descs did).sequence =
       ((s.descs did).sequence + 1) % 2 ^ 32) := by
  rw [kcov_put]
  by_cases h : (s.descs did).refcount - 1 = 0
  · rw [if_pos h]
    right
    rw [(kcov_remote_reset_fields _ _ 0).2.2]
    simp [kcov_reset, updDesc]
  · rw [if_neg h]
    left
    simp [updDesc]

theorem addHandles_effect (did : Nat) (alloc : Nat → Bool) :
    ∀ (hs : List Nat) (i : Nat) (s : KSys),
      (addHandles did alloc s hs i).1.tasks = s.tasks ∧
      (∀ dd, dd ≠ did → (addHandles did alloc s hs i).1.descs dd = s.descs dd) ∧
      ((addHandles did alloc s hs i).1.descs did = s.descs did ∨
       (addHandles did alloc s hs i).1.descs did = kcov_reset (s.descs did)) := by
  intro hs
  induction hs with
  | nil =>
    intro i s
    exact ⟨rfl, fun dd _ => rfl, Or.inl rfl⟩
  | cons hh rest ih =>
    intro i s
    simp only [addHandles]
    by_cases hdup : (kcov_remote_find s.registry hh).isSome
    · rw [if_pos hdup]
      exact ⟨(kcov_remote_reset_fields _ _ 0).1,
        fun dd hdd => (kcov_remote_reset_fields _ _ dd).2.1 hdd,
        Or.inr (kcov_remote_reset_fields _ _ 0).2.2⟩
    · rw [if_neg hdup]
      by_cases halloc : alloc i = true
      · rw [if_neg (by simp [halloc])]
        exact ih (i + 1) { s with registry := (hh, did) :: s.registry }
      · rw [if_pos (by simp [halloc])]
        exact ⟨(kcov_remote_reset_fields _ _ 0).1,
          fun dd hdd => (kcov_remote_reset_fields _ _ dd).2.1 hdd,
          Or.inr (kcov_remote_reset_fields _ _ 0).2.2⟩

theorem updDesc_self (s : KSys) (did : Nat) (d : KcovDesc) :
    (updDesc s did d).descs did = d := by
  simp [updDesc]

theorem updDesc_other (s : KSys) (did : Nat) (d : KcovDesc) (dd : Nat)
    (h : dd ≠ did) : (updDesc s did d).descs dd = s.descs dd := by
  simp [updDesc, h]

theorem updTask_self (s : KSys) (tid : Nat) (tk : KTask) :
    (updTask s tid tk).tasks tid = tk := by
  simp [updTask]

theorem updTask_other (s : KSys) (tid : Nat) (tk : KTask) (t2 : Nat)
    (h : t2 ≠ tid) : (updTask s tid tk).tasks t2 = s.tasks t2 := by
  simp [updTask, h]

/--
The ownership invariant of the control plane: a descriptor with an
owner task is in an enabled trace mode, and its owner's back-reference
points back at it.
-/
def OwnerInv (s : KSys) : Prop :=
  (∀ did, (s.descs did).t ≠ none →
    (s.descs did).mode = KcovMode.TRACE_PC ∨
    (s.descs did).mode = KcovMode.TRACE_CMP) ∧
  (∀ did tid, (s.descs did).t = some tid → (s.tasks tid).kcov = some did)

theorem ownerInv_ksys0 : OwnerInv ksys0 := by
  constructor
  · intro did hdd
    exact absurd rfl hdd
  · intro did tid hdd
    simp [ksys0, kcov_open] at hdd

theorem updTask_descs (s : KSys) (tid : Nat) (tk : KTask) :
    (updTask s tid tk).descs = s.descs := rfl

theorem kcov_get_ownerInv (s : KSys) (did : Nat) (h : OwnerInv s) :
    OwnerInv (kcov_get s did) := by
  obtain ⟨hA, hB⟩ := h
  constructor
  · intro dd hdd
    obtain ⟨gm, gt, _, _⟩ := kcov_get_fields s did dd
    rw [gt] at hdd
    rw [gm]
    exact hA dd hdd
  · intro dd tid2 hdd
    obtain ⟨_, gt, _, gtasks⟩ := kcov_get_fields s did dd
    rw [gt] at hdd
    rw [gtasks]
    exact hB dd tid2 hdd

theorem attach_ownerInv (s : KSys) (did tid : Nat) (D : KcovDesc) (TK : KTask)
    (h : OwnerInv s) (htk0 : (s.tasks tid).kcov = none) (hDt : D.t = some tid)
    (hDm : D.mode = KcovMode.TRACE_PC ∨ D.mode = KcovMode.TRACE_CMP)
    (hTK : TK.kcov = some did) :
    OwnerInv (updTask (updDesc s did D) tid TK) := by
  obtain ⟨hA, hB⟩ := h
  constructor
  · intro dd hdd
    rw [updTask_descs] at hdd ⊢
    by_cases hd : dd = did
    · subst hd
      rw [updDesc_self] at hdd ⊢
      exact hDm
    · rw [updDesc_other _ _ _ _ hd] at hdd ⊢
      exact hA dd hdd
  · intro dd tid2 hdd
    rw [updTask_descs] at hdd
    by_cases hd : dd = did
    · subst hd
      rw [updDesc_self, hDt] at hdd
      injection hdd with hx
      subst hx
      rw [updTask_self]
      exact hTK
    · rw [updDesc_other _ _ _ _ hd] at hdd
      have hb := hB dd tid2 hdd
      have htid : tid2 ≠ tid := by
        intro hx
        subst hx
        rw [htk0] at hb
        cases hb
      rw [updTask_other _ _ _ _ htid]
      exact hb

theorem addHandles_ownerInv (did : Nat) (alloc : Nat → Bool) (hs : List Nat)
    (i : Nat) (s : KSys) (h : OwnerInv s) :
    OwnerInv (addHandles did alloc s hs i).1 := by
  obtain ⟨hT, hO, hS⟩ := addHandles_effect did alloc hs i s
  obtain ⟨hA, hB⟩ := h
  constructor
  · intro dd hdd
    by_cases hd : dd = did
    · subst hd
      rcases hS with hx | hx
      · rw [hx] at hdd ⊢
        exact hA dd hdd
      · rw [hx] at hdd
        simp [kcov_reset] at hdd
    · rw [hO dd hd] at hdd ⊢
      exact hA dd hdd
  · intro dd tid2 hdd
    rw [hT]
    by_cases hd : dd = did
    · subst hd
      rcases hS with hx | hx
      · rw [hx] at hdd
        exact hB dd tid2 hdd
      · rw [hx] at hdd
        simp [kcov_reset] at hdd
    · rw [hO dd hd] at hdd
      exact hB dd tid2 hdd

theorem kcov_disable_state_ownerInv (s : KSys) (did tid : Nat) (h : OwnerInv s)
    (htk : (s.tasks tid).kcov = some did) :
    OwnerInv (kcov_disable_state s did tid) := by
  obtain ⟨hA, hB⟩ := h
  set s1 := updTask s tid (kcov_task_init (s.tasks tid)) with hs1
  set s2 := if (s1.descs did).remote then kcov_remote_reset s1 did
    else updDesc s1 did (kcov_reset (s1.descs did)) with hs2
  have hfin : kcov_disable_state s did tid = kcov_put s2 did := rfl
  rw [hfin]
  have h2self : s2.descs did = kcov_reset (s1.descs did) := by
    rw [hs2]
    by_cases hr : (s1.descs did).remote
    · rw [if_pos hr]
      exact (kcov_remote_reset_fields s1 did 0).2.2
    · rw [if_neg hr]
      exact updDesc_self _ _ _
  have h2other : ∀ dd, dd ≠ did → s2.descs dd = s.descs dd := by
    intro dd hdd
    rw [hs2]
    by_cases hr : (s1.descs did).remote
    · rw [if_pos hr]
      rw [(kcov_remote_reset_fields s1 did dd).2.1 hdd]
      rfl
    · rw [if_neg hr]
      rw [updDesc_other _ _ _ _ hdd]
      rfl
  have h2tasks : s2.tasks = s1.tasks := by
    rw [hs2]
    by_cases hr : (s1.descs did).remote
    · rw [if_pos hr]
      exact (kcov_remote_reset_fields s1 did 0).1
    · rw [if_neg hr]
      rfl
  constructor
  · intro dd hdd
    by_cases hd : dd = did
    · subst hd
      rcases kcov_put_self s2 dd with ⟨hpt, _, _⟩ | ⟨hpt, _, _⟩
      · rw [hpt, h2self] at hdd
        simp [kcov_reset] at hdd
      · exact absurd hpt hdd
    · rw [kcov_put_descs_other _ _ _ hd, h2other dd hd] at hdd ⊢
      exact hA dd hdd
  · intro dd tid2 hdd
    rw [kcov_put_tasks, h2tasks]
    by_cases hd : dd = did
    · subst hd
      rcases kcov_put_self s2 dd with ⟨hpt, _, _⟩ | ⟨hpt, _, _⟩
      · rw [hpt, h2self] at hdd
        simp [kcov_reset] at hdd
      · rw [hpt] at hdd
        cases hdd
    · rw [kcov_put_descs_other _ _ _ hd, h2other dd hd] at hdd
      have hb := hB dd tid2 hdd
      have htid : tid2 ≠ tid := by
        intro hx
        subst hx
        rw [htk] at hb
        injection hb with hbb
        exact hd hbb.symm
      rw [hs1, updTask_other _ _ _ _ htid]
      exact hb

theorem ctrlStep_ownerInv (cfg : Bool) (s : KSys) (ev : Nat × Nat × CtrlOp)
    (h : OwnerInv s) : OwnerInv (ctrlStep cfg s ev) := by
  obtain ⟨hA, hB⟩ := h
  obtain ⟨did, tid, op⟩ := ev
  cases op with
  | mmap len off cand =>
    obtain ⟨hm, ht, _⟩ := kcov_mmap_fields (s.descs did) len off cand
    simp only [ctrlStep]
    constructor
    · intro dd hdd
      by_cases hd : dd = did
      · subst hd
        rw [updDesc_self] at hdd ⊢
        rw [ht] at hdd
        rw [hm]
        exact hA dd hdd
      · rw [updDesc_other _ _ _ _ hd] at hdd ⊢
        exact hA dd hdd
    · intro dd tid2 hdd
      by_cases hd : dd = did
      · subst hd
        rw [updDesc_self, ht] at hdd
        exact hB dd tid2 hdd
      · rw [updDesc_other _ _ _ _ hd] at hdd
        exact hB dd tid2 hdd
  | ioctl cmd =>
    cases cmd with
    | INIT_TRACE size =>
      simp only [ctrlStep, kcov_ioctl_locked]
      by_cases h1 : (s.descs did).mode ≠ KcovMode.DISABLED
      · rw [if_pos h1]
        exact ⟨hA, hB⟩
      · rw [if_neg h1]
        by_cases h2 : size < 2 ∨ size > KCOV_INT_MAX / wordSize
        · rw [if_pos h2]
          exact ⟨hA, hB⟩
        · rw [if_neg h2]
          have hDIS : (s.descs did).mode = KcovMode.DISABLED := not_not.1 h1
          have htnone : (s.descs did).t = none := by
            by_contra hby
            rcases hA did hby with hx | hx <;> rw [hDIS] at hx <;> cases hx
          constructor
          · intro dd hdd
            by_cases hd : dd = did
            · subst hd
              rw [updDesc_self] at hdd
              exact absurd htnone hdd
            · rw [updDesc_other _ _ _ _ hd] at hdd ⊢
              exact hA dd hdd
          · intro dd tid2 hdd
            by_cases hd : dd = did
            · subst hd
              rw [updDesc_self] at hdd
              rw [htnone] at hdd
              cases hdd
            · rw [updDesc_other _ _ _ _ hd] at hdd
              exact hB dd tid2 hdd
    | ENABLE arg =>
      simp only [ctrlStep, kcov_ioctl_locked]
      by_cases h1 : (s.descs did).mode ≠ KcovMode.INIT ∨ (s.descs did).area = none
      · rw [if_pos h1]
        exact ⟨hA, hB⟩
      · rw [if_neg h1]
        by_cases h2 : (s.descs did).t ≠ none ∨ (s.tasks tid).kcov ≠ none
        · rw [if_pos h2]
          exact ⟨hA, hB⟩
        · rw [if_neg h2]
          push_neg at h2
          obtain ⟨ht0, htk0⟩ := h2
          cases hgm : kcov_get_mode cfg arg with
          | err e =>
            exact ⟨hA, hB⟩
          | mode m =>
            exact kcov_get_ownerInv _ _ (attach_ownerInv s did tid _ _ ⟨hA, hB⟩
              htk0 rfl (kcov_get_mode_trace cfg arg m hgm) rfl)
    | DISABLE arg =>
      simp only [ctrlStep, kcov_ioctl_locked]
      by_cases h1 : arg ≠ 0 ∨ (s.tasks tid).kcov ≠ some did
      · rw [if_pos h1]
        exact ⟨hA, hB⟩
      · rw [if_neg h1]
        by_cases h2 : (s.descs did).t ≠ some tid
        · rw [if_pos h2]
          exact ⟨hA, hB⟩
        · rw [if_neg h2]
          push_neg at h1
          exact kcov_disable_state_ownerInv s did tid ⟨hA, hB⟩ h1.2
    | REMOTE_ENABLE tm asize handles alloc =>
      simp only [ctrlStep, kcov_ioctl_locked]
      by_cases h1 : (s.descs did).mode ≠ KcovMode.INIT ∨ (s.descs did).area = none
      · rw [if_pos h1]
        exact ⟨hA, hB⟩
      · rw [if_neg h1]
        by_cases h2 : (s.descs did).t ≠ none ∨ (s.tasks tid).kcov ≠ none
        · rw [if_pos h2]
          exact ⟨hA, hB⟩
        · rw [if_neg h2]
          push_neg at h2
          obtain ⟨ht0, htk0⟩ := h2
          cases hgm : kcov_get_mode cfg tm with
          | err e =>
            exact ⟨hA, hB⟩
          | mode m =>
            have hpend : OwnerInv (kcov_remote_pending s did tid m asize) :=
              attach_ownerInv s did tid _ _ ⟨hA, hB⟩ htk0 rfl
                (kcov_get_mode_trace cfg tm m hgm) rfl
            show OwnerInv (match addHandles did alloc
                (kcov_remote_pending s did tid m asize) handles 0 with
              | (s2, KRes.err e) => (s2, KRes.err e)
              | (s2, KRes.ok) => (kcov_get s2 did, KRes.ok)).1
            rcases hh : addHandles did alloc (kcov_remote_pending s did tid m asize)
              handles 0 with ⟨s2, r⟩
            have hres := addHandles_ownerInv did alloc handles 0 _ hpend
            rw [hh] at hres
            cases r with
            | err e =>
              exact hres
            | ok =>
              exact kcov_get_ownerInv s2 did hres
    | UNKNOWN =>
      exact ⟨hA, hB⟩

theorem runCtrl_ownerInv (cfg : Bool) (evs : List (Nat × Nat × CtrlOp)) :
    ∀ s : KSys, OwnerInv s → OwnerInv (runCtrl cfg evs s) := by
  induction evs with
  | nil => intro s h; exact h
  | cons ev rest ih =>
    intro s h
    exact ih _ (ctrlStep_ownerInv cfg s ev h)

theorem reachable_ownerInv (cfg : Bool) (s : KSys) (h : ReachableCtrl cfg s) :
    OwnerInv s := by
  obtain ⟨evs, rfl⟩ := h
  exact runCtrl_ownerInv cfg evs ksys0 ownerInv_ksys0

/-- Witness for C10 at a concrete reachable state and argument 7. -/
theorem invalid_mode_rejected_witness :
    kcov_ioctl_locked true initMappedSys 0 0 (.ENABLE 7) =
      (initMappedSys,
       .err (if 7 = KCOV_TRACE_CMP then KErr.ENOTSUPP else KErr.EINVAL)) ∧
    kcov_ioctl_locked true initMappedSys 0 0 (.REMOTE_ENABLE 7 3 [] (fun _ => true)) =
      (initMappedSys,
       .err (if 7 = KCOV_TRACE_CMP then KErr.ENOTSUPP else KErr.EINVAL)) :=
  invalid_mode_rejected true initMappedSys 0 0 7 3 [] (fun _ => true)
    (by decide) (by decide) (by decide) (by decide) (by decide) (by decide)

/-- A state with descriptor 0 enabled for PC tracing by task 0. -/
def ownedSys : KSys :=
  runCtrl true (setupEvents ++ [(0, 0, .ioctl (.ENABLE 0))]) ksys0

/--
Counterexample to C6 as stated: in a reachable state where descriptor
0 already has owner task 0, an ENABLE by task 1 returns
invalid-argument, not busy: attaching the owner moved the mode out of
INIT, so the mode check fires before the busy check.
-/
theorem second_enable_gets_invalid_not_busy :
    (ownedSys.descs 0).t = some 0 ∧
    (kcov_ioctl_locked true ownedSys 0 1 (.ENABLE 0)).2 = KRes.err KErr.EINVAL ∧
    (kcov_ioctl_locked true ownedSys 0 1 (.ENABLE 0)).2 ≠ KRes.err KErr.EBUSY := by
  decide

/--
C6 amended: in every control-plane-reachable state, ownership is
mutually exclusive.  An ENABLE on a descriptor that already has an
owner fails with invalid-argument (its mode left INIT when the owner
attached) and changes nothing; an ENABLE by an already-attached task
on an INIT descriptor with a buffer and no owner fails with busy and
changes nothing; and no task owns two descriptors.
-/
theorem enable_owner_exclusion (cfg : Bool) (S : KSys)
    (h : ReachableCtrl cfg S) :
    (∀ did tid tid2 arg, (S.descs did).t = some tid2 →
      kcov_ioctl_locked cfg S did tid (.ENABLE arg) = (S, .err KErr.EINVAL)) ∧
    (∀ did tid arg, (S.tasks tid).kcov ≠ none →
      (S.descs did).mode = KcovMode.INIT → (S.descs did).area ≠ none →
      kcov_ioctl_locked cfg S did tid (.ENABLE arg) = (S, .err KErr.EBUSY)) ∧
    (∀ d1 d2 tid, (S.descs d1).t = some tid → (S.descs d2).t = some tid →
      d1 = d2) := by
  obtain ⟨hA, hB⟩ := reachable_ownerInv cfg S h
  refine ⟨?_, ?_, ?_⟩
  · intro did tid tid2 arg hown
    have hmode := hA did (by rw [hown]; simp)
    have hcond : (S.descs did).mode ≠ KcovMode.INIT ∨ (S.descs did).area = none := by
      left
      intro heq
      rcases hmode with hx | hx <;> rw [heq] at hx <;> cases hx
    simp only [kcov_ioctl_locked]
    rw [if_pos hcond]
  · intro did tid arg htk hinit harea
    simp only [kcov_ioctl_locked]
    rw [if_neg (by simp [hinit, harea]), if_pos (Or.inr htk)]
  · intro d1 d2 tid h1 h2
    have e1 := hB d1 tid h1
    have e2 := hB d2 tid h2
    rw [e1] at e2
    injection e2

/-- A state with descriptor 0 owned by task 0 and a second descriptor
1 in INIT with a buffer attached. -/
def twoDescSys : KSys :=
  runCtrl true (setupEvents ++ [(0, 0, .ioctl (.ENABLE 0)),
    (1, 3, .ioctl (.INIT_TRACE 4)), (1, 3, .mmap 32 0 (some 2))]) ksys0

/-- Witness for the amended C6: invalid-argument on the owned
descriptor, busy for the already-attached task on a fresh one. -/
theorem enable_owner_exclusion_witness :
    kcov_ioctl_locked true ownedSys 0 1 (.ENABLE 0) =
      (ownedSys, .err KErr.EINVAL) ∧
    kcov_ioctl_locked true twoDescSys 1 0 (.ENABLE 0) =
      (twoDescSys, .err KErr.EBUSY) := by
  constructor
  · exact (enable_owner_exclusion true ownedSys ⟨_, rfl⟩).1 0 1 0 0 (by decide)
  · exact (enable_owner_exclusion true twoDescSys ⟨_, rfl⟩).2.1
      1 0 0 (by decide) (by decide) (by decide)

/-- How one control-plane step can change a descriptor's sequence: not
at all, one kcov_reset, or a reset followed by a last-reference put. -/
def SeqEvolves (a b : Nat) : Prop :=
  b = a ∨ b = (a + 1) % 2 ^ 32 ∨ b = ((a + 1) % 2 ^ 32 + 1) % 2 ^ 32

theorem addHandles_effect_eq (did : Nat) (alloc : Nat → Bool) (hs : List Nat)
    (i : Nat) (s s2 : KSys) (r : KRes)
    (hh : addHandles did alloc s hs i = (s2, r)) :
    s2.tasks = s.tasks ∧
    (∀ dd, dd ≠ did → s2.descs dd = s.descs dd) ∧
    (s2.descs did = s.descs did ∨ s2.descs did = kcov_reset (s.descs did)) := by
  have heff := addHandles_effect did alloc hs i s
  rw [hh] at heff
  exact heff

theorem kcov_enable_state_seq (s : KSys) (did tid : Nat) (m : KcovMode) (dd : Nat) :
    ((kcov_enable_state s did tid m).descs dd).sequence =
      (s.descs dd).sequence := by
  simp only [kcov_enable_state]
  rw [(kcov_get_fields _ _ dd).2.2.1, updTask_descs]
  by_cases hd : dd = did
  · subst hd
    rw [updDesc_self]
  · rw [updDesc_other _ _ _ _ hd]

theorem kcov_disable_state_seq (s : KSys) (did tid dd : Nat) :
    SeqEvolves ((s.descs dd).sequence)
      (((kcov_disable_state s did tid).descs dd).sequence) := by
  set s1 := updTask s tid (kcov_task_init (s.tasks tid)) with hs1
  set s2 := if (s1.descs did).remote then kcov_remote_reset s1 did
    else updDesc s1 did (kcov_reset (s1.descs did)) with hs2
  have hfin : kcov_disable_state s did tid = kcov_put s2 did := rfl
  rw [hfin]
  have h2self : s2.descs did = kcov_reset (s1.descs did) := by
    rw [hs2]
    by_cases hr : (s1.descs did).remote
    · rw [if_pos hr]
      exact (kcov_remote_reset_fields s1 did 0).2.2
    · rw [if_neg hr]
      exact updDesc_self _ _ _
  have h2other : ∀ d2, d2 ≠ did → s2.descs d2 = s.descs d2 := by
    intro d2 hd2
    rw [hs2]
    by_cases hr : (s1.descs did).remote
    · rw [if_pos hr]
      rw [(kcov_remote_reset_fields s1 did d2).2.1 hd2]
      rfl
    · rw [if_neg hr]
      rw [updDesc_other _ _ _ _ hd2]
      rfl
  by_cases hd : dd = did
  · subst hd
    have hseq2 : (s2.descs dd).sequence = ((s.descs dd).sequence + 1) % 2 ^ 32 := by
      rw [h2self]
      rfl
    rcases kcov_put_self s2 dd with ⟨_, _, hps⟩ | ⟨_, _, hps⟩
    · right
      left
      rw [hps, hseq2]
    · right
      right
      rw [hps, hseq2]
  · left
    rw [kcov_put_descs_other _ _ _ hd, h2other dd hd]

theorem ctrlStep_seq (cfg : Bool) (s : KSys) (ev : Nat × Nat × CtrlOp) (dd : Nat) :
    SeqEvolves ((s.descs dd).sequence)
      (((ctrlStep cfg s ev).descs dd).sequence) := by
  obtain ⟨did, tid, op⟩ := ev
  cases op with
  | mmap len off cand =>
    simp only [ctrlStep]
    left
    by_cases hd : dd = did
    · subst hd
      rw [updDesc_self]
      exact (kcov_mmap_fields _ _ _ _).2.2
    · rw [updDesc_other _ _ _ _ hd]
  | ioctl cmd =>
    cases cmd with
    | INIT_TRACE size =>
      simp only [ctrlStep, kcov_ioctl_locked]
      by_cases h1 : (s.descs did).mode ≠ KcovMode.DISABLED
      · rw [if_pos h1]
        exact Or.inl rfl
      · rw [if_neg h1]
        by_cases h2 : size < 2 ∨ size > KCOV_INT_MAX / wordSize
        · rw [if_pos h2]
          exact Or.inl rfl
        · rw [if_neg h2]
          left
          by_cases hd : dd = did
          · subst hd
            rw [updDesc_self]
          · rw [updDesc_other _ _ _ _ hd]
    | ENABLE arg =>
      simp only [ctrlStep, kcov_ioctl_locked]
      by_cases h1 : (s.descs did).mode ≠ KcovMode.INIT ∨ (s.descs did).area = none
      · rw [if_pos h1]
        exact Or.inl rfl
      · rw [if_neg h1]
        by_cases h2 : (s.descs did).t ≠ none ∨ (s.tasks tid).kcov ≠ none
        · rw [if_pos h2]
          exact Or.inl rfl
        · rw [if_neg h2]
          cases hgm : kcov_get_mode cfg arg with
          | err e =>
            exact Or.inl rfl
          | mode m =>
            exact Or.inl (kcov_enable_state_seq s did tid m dd)
    | DISABLE arg =>
      simp only [ctrlStep, kcov_ioctl_locked]
      by_cases h1 : arg ≠ 0 ∨ (s.tasks tid).kcov ≠ some did
      · rw [if_pos h1]
        exact Or.inl rfl
      · rw [if_neg h1]
        by_cases h2 : (s.descs did).t ≠ some tid
        · rw [if_pos h2]
          exact Or.inl rfl
        · rw [if_neg h2]
          exact kcov_disable_state_seq s did tid dd
    | REMOTE_ENABLE tm asize handles alloc =>
      simp only [ctrlStep, kcov_ioctl_locked]
      by_cases h1 : (s.descs did).mode ≠ KcovMode.INIT ∨ (s.descs did).area = none
      · rw [if_pos h1]
        exact Or.inl rfl
      · rw [if_neg h1]
        by_cases h2 : (s.descs did).t ≠ none ∨ (s.tasks tid).kcov ≠ none
        · rw [if_pos h2]
          exact Or.inl rfl
        · rw [if_neg h2]
          cases hgm : kcov_get_mode cfg tm with
          | err e =>
            exact Or.inl rfl
          | mode m =>
            show SeqEvolves ((s.descs dd).sequence)
              (((match addHandles did alloc
                  (kcov_remote_pending s did tid m asize) handles 0 with
                | (s2, KRes.err e) => (s2, KRes.err e)
                | (s2, KRes.ok) => (kcov_get s2 did, KRes.ok)).1.descs dd).sequence)
            rcases hh : addHandles did alloc (kcov_remote_pending s did tid m asize)
              handles 0 with ⟨s2, r⟩
            obtain ⟨-, hO, hS⟩ := addHandles_effect_eq did alloc handles 0 _ s2 r hh
            have hpend : ∀ d2, ((kcov_remote_pending s did tid m asize).descs d2).sequence =
                (s.descs d2).sequence := by
              intro d2
              rw [kcov_remote_pending, updTask_descs]
              by_cases hd2 : d2 = did
              · subst hd2
                rw [updDesc_self]
              · rw [updDesc_other _ _ _ _ hd2]
            have hs2seq : SeqEvolves ((s.descs dd).sequence) ((s2.descs dd).sequence) := by
              by_cases hd : dd = did
              · subst hd
                rcases hS with hx | hx
                · left
                  rw [hx, hpend]
                · right
                  left
                  rw [hx]
                  show (kcov_reset _).sequence = _
                  rw [kcov_reset]
                  simp only
                  rw [hpend]
              · left
                rw [hO dd hd, hpend]
            cases r with
            | err e =>
              exact hs2seq
            | ok =>
              have : ((kcov_get s2 did).descs dd).sequence = (s2.descs dd).sequence :=
                (kcov_get_fields s2 did dd).2.2.1
              rw [this]
              exact hs2seq
    | UNKNOWN =>
      exact Or.inl rfl

theorem runCtrl_seq (cfg : Bool) (evs : List (Nat × Nat × CtrlOp)) :
    ∀ (s : KSys) (dd : Nat), (s.descs dd).sequence < 2 ^ 32 →
      ∃ k, k ≤ 2 * evs.length ∧
        ((runCtrl cfg evs s).descs dd).sequence =
          ((s.descs dd).sequence + k) % 2 ^ 32 := by
  induction evs with
  | nil =>
    intro s dd h
    exact ⟨0, by omega, by simpa using (Nat.mod_eq_of_lt h).symm⟩
  | cons ev rest ih =>
    intro s dd h
    have hrw : runCtrl cfg (ev :: rest) s = runCtrl cfg rest (ctrlStep cfg s ev) := rfl
    have hstep := ctrlStep_seq cfg s ev dd
    have h1lt : ((ctrlStep cfg s ev).descs dd).sequence < 2 ^ 32 := by
      rcases hstep with hx | hx | hx <;> rw [hx]
      · exact h
      · exact Nat.mod_lt _ (by norm_num)
      · exact Nat.mod_lt _ (by norm_num)
    obtain ⟨k, hk, hks⟩ := ih (ctrlStep cfg s ev) dd h1lt
    rw [hrw]
    rcases hstep with hx | hx | hx
    · refine ⟨k, ?_, ?_⟩
      · simp only [List.length_cons]
        omega
      · rw [hks, hx]
    · refine ⟨k + 1, ?_, ?_⟩
      · simp only [List.length_cons]
        omega
      · rw [hks, hx]
        omega
    · refine ⟨k + 2, ?_, ?_⟩
      · simp only [List.length_cons]
        omega
      · rw [hks, hx]
        omega

theorem kcov_disable_state_seq_self (s : KSys) (did tid : Nat) :
    ∃ k, 1 ≤ k ∧ k ≤ 2 ∧
      ((kcov_disable_state s did tid).descs did).sequence =
        ((s.descs did).sequence + k) % 2 ^ 32 := by
  set s1 := updTask s tid (kcov_task_init (s.tasks tid)) with hs1
  set s2 := if (s1.descs did).remote then kcov_remote_reset s1 did
    else updDesc s1 did (kcov_reset (s1.descs did)) with hs2
  have hfin : kcov_disable_state s did tid = kcov_put s2 did := rfl
  rw [hfin]
  have h2self : s2.descs did = kcov_reset (s1.descs did) := by
    rw [hs2]
    by_cases hr : (s1.descs did).remote
    · rw [if_pos hr]
      exact (kcov_remote_reset_fields s1 did 0).2.2
    · rw [if_neg hr]
      exact updDesc_self _ _ _
  have hseq2 : (s2.descs did).sequence = ((s.descs did).sequence + 1) % 2 ^ 32 := by
    rw [h2self]
    rfl
  rcases kcov_put_self s2 did with ⟨_, _, hps⟩ | ⟨_, _, hps⟩
  · exact ⟨1, by omega, by omega, by rw [hps, hseq2]⟩
  · exact ⟨2, by omega, by omega, by rw [hps, hseq2]; omega⟩

theorem disable_ok_seq (cfg : Bool) (s : KSys) (did tid arg : Nat)
    (hok : (kcov_ioctl_locked cfg s did tid (.DISABLE arg)).2 = KRes.ok) :
    ∃ k, 1 ≤ k ∧ k ≤ 2 ∧
      (((kcov_ioctl_locked cfg s did tid (.DISABLE arg)).1).descs did).sequence =
        ((s.descs did).sequence + k) % 2 ^ 32 := by
  simp only [kcov_ioctl_locked] at hok ⊢
  by_cases h1 : arg ≠ 0 ∨ (s.tasks tid).kcov ≠ some did
  · rw [if_pos h1] at hok
    simp at hok
  · rw [if_neg h1] at hok ⊢
    by_cases h2 : (s.descs did).t ≠ some tid
    · rw [if_pos h2] at hok
      simp at hok
    · rw [if_neg h2]
      exact kcov_disable_state_seq_self s did tid

/--
C5: a window's sequence snapshot is taken at remote_start; if a
successful DISABLE on the descriptor happens between the snapshot and
the remote_stop (with fewer than 2 ^ 31 further control operations in
the window, so the 32-bit sequence cannot lap), remote_stop's check
fails and no merge happens: the destination buffer is returned
unchanged, so no record of the window reaches it.
-/
theorem disable_invalidates_remote_window (cfg : Bool) (S : KSys) (did tid : Nat)
    (pre post : List (Nat × Nat × CtrlOp)) (dst src : Nat → Nat)
    (hseq : (S.descs did).sequence < 2 ^ 32)
    (hok : (kcov_ioctl_locked cfg (runCtrl cfg pre S) did tid (.DISABLE 0)).2 =
      KRes.ok)
    (hlen : 2 * pre.length + 2 * post.length + 2 < 2 ^ 32) :
    kcov_remote_stop_merge ((S.descs did).sequence)
      ((runCtrl cfg post
        ((kcov_ioctl_locked cfg (runCtrl cfg pre S) did tid (.DISABLE 0)).1)).descs
        did)
      dst src = dst := by
  obtain ⟨k1, hk1, hks1⟩ := runCtrl_seq cfg pre S did hseq
  obtain ⟨k2, hk21, hk22, hks2⟩ := disable_ok_seq cfg (runCtrl cfg pre S) did tid 0 hok
  have h2lt : ((((kcov_ioctl_locked cfg (runCtrl cfg pre S) did tid
      (.DISABLE 0)).1)).descs did).sequence < 2 ^ 32 := by
    rw [hks2]
    exact Nat.mod_lt _ (by norm_num)
  obtain ⟨k3, hk3, hks3⟩ := runCtrl_seq cfg post _ did h2lt
  have hne : ((runCtrl cfg post
      ((kcov_ioctl_locked cfg (runCtrl cfg pre S) did tid (.DISABLE 0)).1)).descs
      did).sequence ≠ (S.descs did).sequence := by
    rw [hks3, hks2, hks1]
    omega
  rw [kcov_remote_stop_merge, if_neg]
  intro hand
  exact hne hand.1.symm

/-- Witness for C5: remote-enable handle 5 on descriptor 0, then a
DISABLE in an empty window; the stop merges nothing. -/
theorem disable_invalidates_remote_window_witness :
    kcov_remote_stop_merge ((remoteEnabledSys.descs 0).sequence)
      ((runCtrl true []
        ((kcov_ioctl_locked true (runCtrl true [] remoteEnabledSys) 0 0
          (.DISABLE 0)).1)).descs 0)
      zeroBuf zeroBuf = zeroBuf :=
  disable_invalidates_remote_window true remoteEnabledSys 0 0 [] [] zeroBuf zeroBuf
    (by decide) (by decide) (by decide)

/-- Witness for C9: a task in softirq context and a task enabled for
PC tracing hitting a CMP sink both leave the buffer untouched. -/
theorem sinks_noop_when_disabled_witness :
    __sanitizer_cov_trace_pc ⟨false, .TRACE_PC, 8⟩ 0 5 zeroBuf = zeroBuf ∧
    __sanitizer_cov_trace_cmp1 ⟨true, .TRACE_PC, 8⟩ 0 1 2 5 zeroBuf = zeroBuf := by
  constructor
  · exact (sinks_noop_when_disabled ⟨false, .TRACE_PC, 8⟩ 0 5 0 1 2 [] zeroBuf).1
      (Or.inl rfl)
  · exact ((sinks_noop_when_disabled ⟨true, .TRACE_PC, 8⟩ 0 5 0 1 2 [] zeroBuf).2
      (Or.inr (by decide))).2.1

end Kcov
